import Mathlib

/-!
Verification of the hug_core Interface construction and invocation pipeline
(`hug_core/interface.py` and `hug_core/routing.py`), via a shallow embedding.

Python runtime values are modelled by the inductive type `Val`; exceptions by
`Exn` (carrying class name, message, `args` tuple, optional `reasons` payload
and an instance identity); dictionaries by association lists with Python
insertion-order semantics (update in place, insert appends).  Collaborator
callables (type handlers, directive factories, output formatters, requirement
predicates, the wrapped function) are modelled as Lean functions; fallible
ones return `Except Exn`.  Observable effects of one invocation of a bound
`Local` interface (context creation and teardown, requirement evaluation,
directive injection, handler application, function invocation, per-parameter
cleanup, output formatting) are recorded as an event trace.
-/

set_option autoImplicit false

namespace HugCore

mutual

/-- Model of a Python runtime value, covering the shapes the pipeline
inspects: strings, ints, bools, None, lists/tuples, dicts, opaque objects
(with a flag recording whether they expose a `cleanup` attribute), and
awaitable objects wrapping the eventual outcome of a coroutine. -/
inductive Val where
  | vstr : String → Val
  | vint : Int → Val
  | vbool : Bool → Val
  | vnone : Val
  | vlist : List Val → Val
  | vdict : List (String × Val) → Val
  | vobj : Nat → Bool → Val
  | vawait : Res → Val

/-- Outcome of a completed coroutine: a value or a raised exception. -/
inductive Res where
  | val : Val → Res
  | exn : Exn → Res

/-- Model of a Python exception instance: class name, `str(e)`, the `args`
tuple, the `reasons` attribute of `InvalidTypeData` (-- `Val.vnone` when
absent), and a numeric identity distinguishing instances. -/
inductive Exn where
  | mk : String → String → List Val → Val → Nat → Exn

end

/-- Class name of the exception (used for `except TypeError` and
`except InvalidTypeData` dispatch). -/
def Exn.ty : Exn → String
  | .mk t _ _ _ _ => t

/-- Model of `str(error)`. -/
def Exn.msg : Exn → String
  | .mk _ m _ _ _ => m

/-- Model of `error.args`. -/
def Exn.args : Exn → List Val
  | .mk _ _ a _ _ => a

/-- Model of `error.reasons` (for `InvalidTypeData`); `Val.vnone` if absent. -/
def Exn.reasons : Exn → Val
  | .mk _ _ _ r _ => r

/-- Instance identity of the exception object. -/
def Exn.id : Exn → Nat
  | .mk _ _ _ _ i => i

instance : Inhabited Val := ⟨Val.vnone⟩

/-- Python truthiness of a modelled value. -/
def truthy : Val → Bool
  | .vstr s => !s.isEmpty
  | .vint n => n != 0
  | .vbool b => b
  | .vnone => false
  | .vlist l => !l.isEmpty
  | .vdict d => !d.isEmpty
  | .vobj _ _ => true
  | .vawait _ => true

/-- Whether the value is the `None` singleton. -/
def isNone : Val → Bool
  | .vnone => true
  | _ => false

/-- Whether the value is a tuple/list (for `isinstance(x, (tuple, list))`). -/
def isListVal : Val → Bool
  | .vlist _ => true
  | _ => false

/-- Whether the value is the `True` singleton (for `x is True`). -/
def isTrueVal : Val → Bool
  | .vbool true => true
  | _ => false

/-- Whether the object exposes a `cleanup` attribute. -/
def hasCleanup : Val → Bool
  | .vobj _ c => c
  | _ => false

/-- Association lists keyed by strings model Python dicts; the value type is
generic so the same operations serve value dicts, directive maps and
handler maps. -/
abbrev AList (α : Type) := List (String × α)

/-- Python dicts over modelled values. -/
abbrev Dict := AList Val

/-- Dict lookup: `d[k]` / `d.get(k)`. -/
def dlookup {α : Type} : AList α → String → Option α
  | [], _ => none
  | (k, v) :: t, key => if key = k then some v else dlookup t key

/-- Dict membership: `k in d`. -/
def dmem {α : Type} (d : AList α) (k : String) : Bool :=
  (dlookup d k).isSome

/-- Dict assignment `d[k] = v`: updates the existing entry in place, or
appends a new entry (Python insertion order). -/
def dinsert {α : Type} : AList α → String → α → AList α
  | [], key, v => [(key, v)]
  | (k, w) :: t, key, v => if key = k then (k, v) :: t else (k, w) :: dinsert t key v

/-- Dict deletion (the removal half of `d.pop(k)`). -/
def dremove {α : Type} : AList α → String → AList α
  | [], _ => []
  | (k, w) :: t, key => if key = k then t else (k, w) :: dremove t key

/-- Building a dict from a pair sequence, as `dict(pairs)` does. -/
def dictOfPairs {α : Type} (l : List (String × α)) : AList α :=
  l.foldl (fun d p => dinsert d p.1 p.2) []

/-- Model of `d.copy(); d.update(overrides)`. -/
def dupdate {α : Type} (d overrides : AList α) : AList α :=
  overrides.foldl (fun acc p => dinsert acc p.1 p.2) d

/-- Keys of a dict. -/
def dkeys {α : Type} (d : AList α) : List String :=
  d.map Prod.fst

/-! ### Collaborator callables and the bound Local interface -/

/-- Model of an input type handler (coercer): `withCtx` is the call
`handler(value, context=context)`, `plain` is the call `handler(value)`;
either may raise. -/
structure Handler where
  withCtx : Val → Val → Except Exn Val
  plain : Val → Except Exn Val

/-- Model of the wrapped user function: whether it is a coroutine function,
and the outcome of running its body on given keyword arguments. -/
structure FnModel where
  is_coroutine : Bool
  run : Dict → Except Exn Val

/-- A directive factory, closed over the call-time api/version/interface/
context keyword arguments; its positional argument is the parameter default
when one exists (`(self.defaults[parameter],)` vs `()`). -/
abbrev Directive := Option Val → Val

/-- The bound `Local` interface: the fields of `Interface`/`Local` that the
invocation path reads, with collaborator callables inlined as functions and
the per-call context (the value `self.api.context_factory(...)` returns)
plus the per-call conclusions of the requirement predicates recorded as
data. -/
structure LocalInterface where
  parameters : List String
  required : List String
  defaults : Dict
  directives : AList Directive
  input_transformations : AList Handler
  transform : Option (Val → Except Exn Val)
  outputs : Option (Val → Val)
  invalid_outputs : Option (Val → Val)
  on_invalid : Option (Val → Val)
  raise_on_invalid : Bool
  requires : List Val
  validate_function : Option (Dict → Val)
  map_params : AList String
  skip_directives : Bool
  skip_validation : Bool
  context : Val
  fn : FnModel

/-! ### Observable events of one invocation -/

/-- Observable events of one `Local.__call__` invocation: context creation,
requirement evaluation (with index and conclusion), directive factory
invocation, handler calls (with and without context), secondary validator
invocation, `on_invalid` invocation, wrapped-function invocation, transform
application, per-parameter cleanup (with the exception passed), context
teardown (with its `exception` / `errors` / `lacks_requirement` keyword
arguments), and output formatting. -/
inductive Event where
  | ctxCreate : Event
  | reqEval : Nat → Val → Event
  | dirRun : String → Event
  | handlerCtxCall : String → Event
  | handlerPlainCall : String → Event
  | validateFnRun : Event
  | onInvalidRun : Event
  | fnCall : Event
  | transformRun : Event
  | cleanupRun : String → Option Exn → Event
  | delCtx : Option Exn → Option Val → Option Val → Event
  | outputRun : Event

/-- Result of one invocation: a returned value or a propagating exception. -/
inductive Outcome where
  | ret : Val → Outcome
  | raise : Exn → Outcome

/-! ### The invocation pipeline, mirroring `hug_core/interface.py` -/

/-- The test `if conclusion and conclusion is not True` from
`Interface.check_requirements`. -/
def reqFailing (v : Val) : Bool := truthy v && !(isTrueVal v)

/-- Inner loop of `Interface.check_requirements`: evaluates the requirement
conclusions in declaration order and stops at the first failing one. -/
def checkReqGo : Nat → List Val → Option Val × List Event
  | _, [] => (none, [])
  | i, r :: rest =>
    if reqFailing r then (some r, [Event.reqEval i r])
    else
      let (o, ev) := checkReqGo (i + 1) rest
      (o, Event.reqEval i r :: ev)

/-- Model of `Interface.check_requirements`: returns the first conclusion
that is truthy and not the `True` singleton, or nothing. -/
def check_requirements (reqs : List Val) : Option Val × List Event :=
  checkReqGo 0 reqs

/-- The outer loop in `Local.__call__`: `for _requirement in self.requires:`
re-invokes `check_requirements` once per configured requirement until one
call reports a failure. -/
def requiresLoopGo (reqs : List Val) : List Val → Option Val × List Event
  | [] => (none, [])
  | _ :: rest =>
    let (o, ev) := check_requirements reqs
    match o with
    | some v => (some v, ev)
    | none =>
      let (o2, ev2) := requiresLoopGo reqs rest
      (o2, ev ++ ev2)

/-- The requirement phase of `Local.__call__`. -/
def requires_loop (reqs : List Val) : Option Val × List Event :=
  requiresLoopGo reqs reqs

/-- Positional-to-named binding:
`for index, argument in enumerate(args): kwargs[self.parameters[index]] = argument`
(defined over the zip; `local_call` guards the out-of-range `IndexError`
case separately). -/
def bind_positional (params : List String) (args : List Val) (kw : Dict) : Dict :=
  (params.zip args).foldl (fun d p => dinsert d p.1 p.2) kw

/-- Directive injection from `Local.__call__`: for each directive-named
parameter not already supplied, invoke the factory (passing the declared
default when one exists) and bind the produced value. -/
def inject_directives : AList Directive → Dict → Dict → Dict × List Event
  | [], _, kw => (kw, [])
  | (p, d) :: rest, defaults, kw =>
    if dmem kw p then inject_directives rest defaults kw
    else
      let (kw2, ev) := inject_directives rest defaults (dinsert kw p (d (dlookup defaults p)))
      (kw2, Event.dirRun p :: ev)

/-- Which of the two call shapes of a handler were used. -/
inductive HCall where
  | withCtx : HCall
  | plain : HCall

/-- Model of `Interface.initialize_handler`: try `handler(value, context=context)`
first and, exactly when that raises a `TypeError`, retry as `handler(value)`. -/
def initialize_handler (h : Handler) (value ctx : Val) : Except Exn Val × List HCall :=
  match h.withCtx value ctx with
  | .ok r => (.ok r, [.withCtx])
  | .error e =>
    if e.ty = "TypeError" then (h.plain value, [.withCtx, .plain])
    else (.error e, [.withCtx])

/-- Tags handler-call events with the parameter name being validated. -/
def hcallEvents (key : String) (l : List HCall) : List Event :=
  l.map fun c =>
    match c with
    | .withCtx => Event.handlerCtxCall key
    | .plain => Event.handlerPlainCall key

/-- The value stored for a collected coercion error: for `InvalidTypeData`
its `reasons` (or `str(error)` when falsy), otherwise `error.args[0]` when
the args tuple is non-empty, else `str(error)`. -/
def errorEntry (e : Exn) : Val :=
  if e.ty = "InvalidTypeData" then
    (if truthy e.reasons then e.reasons else Val.vstr e.msg)
  else
    match e.args with
    | a :: _ => a
    | [] => Val.vstr e.msg

/-- Result of the validation phase: either an exception propagated because
`raise_on_invalid` is set, or the errors value together with the (possibly
coerced) parameters. -/
inductive VRes where
  | raised : Exn → List Event → VRes
  | done : Val → Dict → List Event → VRes

/-- Result of the per-parameter loop of `Interface.validate`: either an
exception propagated because `raise_on_invalid` is set, or the collected
error dict together with the (possibly coerced) parameters. -/
inductive VLoopRes where
  | raised : Exn → List Event → VLoopRes
  | cont : Dict → Dict → List Event → VLoopRes

/-- The per-parameter loop of `Interface.validate`: applies each registered
input transformation to the supplied value; with `raise_on_invalid` the
first exception propagates, otherwise exceptions are collected per key. -/
def validateLoop (roi : Bool) (ctx : Val) :
    List (String × Handler) → Dict → Dict → List Event → VLoopRes
  | [], errors, kw, ev => .cont errors kw ev
  | (key, th) :: rest, errors, kw, ev =>
    match dlookup kw key with
    | none => validateLoop roi ctx rest errors kw ev
    | some v =>
      let (res, calls) := initialize_handler th v ctx
      let ev2 := ev ++ hcallEvents key calls
      match res with
      | .ok r => validateLoop roi ctx rest errors (dinsert kw key r) ev2
      | .error e =>
        if roi then .raised e ev2
        else validateLoop roi ctx rest (dinsert errors key (errorEntry e)) kw ev2

/-- The single quote character, used by the required-parameter message. -/
def sq : String := String.singleton (Char.ofNat 39)

/-- The message `"Required parameter '<name>' not supplied"`. -/
def requiredMsg (name : String) : String :=
  "Required parameter " ++ sq ++ name ++ sq ++ " not supplied"

/-- The required-parameter pass of `Interface.validate`. -/
def addRequiredErrors (required : List String) (kw : Dict) (errors : Dict) : Dict :=
  required.foldl
    (fun errs r => if dmem kw r then errs else dinsert errs r (Val.vstr (requiredMsg r)))
    errors

/-- Model of `Interface.validate`: run all input transformations, add a
message for each required parameter not supplied, and when no errors were
collected run the secondary validator (if configured) and use its return
value as the error set. -/
def validate (self : LocalInterface) (kw : Dict) (ctx : Val) : VRes :=
  match validateLoop self.raise_on_invalid ctx self.input_transformations [] kw [] with
  | .raised e ev => .raised e ev
  | .cont errors kw2 ev =>
    let errors2 := addRequiredErrors self.required kw2 errors
    if errors2.isEmpty then
      match self.validate_function with
      | some f => .done (f kw2) kw2 (ev ++ [Event.validateFnRun])
      | none => .done (Val.vdict errors2) kw2 ev
    else .done (Val.vdict errors2) kw2 ev

/-- Model of `Interface._rewrite_params`: rewrite interface-facing names
back to the internal parameter names per the configured rename map. -/
def rewrite_params (mp : AList String) (kw : Dict) : Dict :=
  mp.foldl
    (fun kw p =>
      match dlookup kw p.1 with
      | some v => dinsert (dremove kw p.1) p.2 v
      | none => kw)
    kw

/-- Packs a function outcome as the eventual result of an awaitable. -/
def resOf (r : Except Exn Val) : Res :=
  match r with
  | .ok v => .val v
  | .error e => .exn e

/-- Model of `asyncio_call`: when a loop is already running, calling the
coroutine function just produces the coroutine (an awaitable) without
executing its body; otherwise the coroutine is scheduled and run to
completion, its result returned (or its exception re-raised) synchronously. -/
def asyncio_call (fn : FnModel) (loopRunning : Bool) (kw : Dict) : Except Exn Val :=
  if loopRunning then .ok (Val.vawait (resOf (fn.run kw)))
  else fn.run kw

/-- Model of `Interfaces.__call__`: plain call for ordinary functions,
`asyncio_call` for coroutine functions. -/
def interfaces_call (fn : FnModel) (loopRunning : Bool) (kw : Dict) : Except Exn Val :=
  if !fn.is_coroutine then fn.run kw
  else asyncio_call fn loopRunning kw

/-- Function invocation followed by the configured return transform
(the body of the `try` block in `Local.__call__`). -/
def invoke_transform (self : LocalInterface) (loopRunning : Bool) (kw : Dict) :
    Except Exn Val × List Event :=
  match interfaces_call self.fn loopRunning kw with
  | .error e => (.error e, [Event.fnCall])
  | .ok r =>
    match self.transform with
    | none => (.ok r, [Event.fnCall])
    | some t =>
      match t r with
      | .error e => (.error e, [Event.fnCall, Event.transformRun])
      | .ok r2 => (.ok r2, [Event.fnCall, Event.transformRun])

/-- Model of `Interface.cleanup_parameters`: invoke `cleanup(exception=...)`
on every bound argument value exposing a `cleanup` attribute. -/
def cleanup_parameters (kw : Dict) (e : Option Exn) : List Event :=
  kw.filterMap fun p => if hasCleanup p.2 then some (Event.cleanupRun p.1 e) else none

/-- Output formatting: `self.outputs(x) if self.outputs else x`. -/
def apply_outputs (o : Option (Val → Val)) (v : Val) : Val × List Event :=
  match o with
  | some f => (f v, [Event.outputRun])
  | none => (v, [])

/-- The `on_invalid` transform applied to the wrapped error mapping when
one is configured. -/
def onInvalidApply (o : Option (Val → Val)) (v : Val) : Val × List Event :=
  match o with
  | some f => (f v, [Event.onInvalidRun])
  | none => (v, [])

/-- The formatter used for invalid results:
`getattr(self, "invalid_outputs", self.outputs)`. -/
def invalidOuts (self : LocalInterface) : Option (Val → Val) :=
  match self.invalid_outputs with
  | some f => some f
  | none => self.outputs

/-- The `IndexError` raised by `self.parameters[index]` when more positional
arguments are supplied than there are parameters. -/
def indexError : Exn := .mk "IndexError" "tuple index out of range" [] .vnone 0

/-- The keyword arguments after positional binding. -/
def kwBound (self : LocalInterface) (args : List Val) (kw0 : Dict) : Dict :=
  bind_positional self.parameters args kw0

/-- The directive-injection stage (skippable per route). -/
def directivesStage (self : LocalInterface) (args : List Val) (kw0 : Dict) :
    Dict × List Event :=
  if self.skip_directives then (kwBound self args kw0, [])
  else inject_directives self.directives self.defaults (kwBound self args kw0)

/-- The validation stage (skippable per route). -/
def validationStage (self : LocalInterface) (args : List Val) (kw0 : Dict) : VRes :=
  if self.skip_validation then .done (Val.vdict []) (directivesStage self args kw0).1 []
  else validate self (directivesStage self args kw0).1 self.context

/-- Model of `Local.__call__`: context creation, requirement check with
early exit, positional binding, directive injection, validation with the
error-mapping early exit, parameter rename reversal, function invocation
and transform inside the `try` block with cleanup / teardown / re-raise on
exception, and cleanup / teardown / output formatting on success. -/
def local_call (self : LocalInterface) (loopRunning : Bool) (args : List Val)
    (kwargs : Dict) : Outcome × List Event :=
  match requires_loop self.requires with
  | (some lacks, evr) =>
    let (out, evo) := apply_outputs self.outputs lacks
    (.ret out, Event.ctxCreate :: (evr ++ [Event.delCtx none none (some lacks)] ++ evo))
  | (none, evr) =>
    if self.parameters.length < args.length then
      (.raise indexError, Event.ctxCreate :: evr)
    else
      let evd := (directivesStage self args kwargs).2
      match validationStage self args kwargs with
      | .raised e ev3 => (.raise e, Event.ctxCreate :: (evr ++ evd ++ ev3))
      | .done errors kw3 ev3 =>
        if truthy errors then
          let (errors3, evi) := onInvalidApply self.on_invalid (Val.vdict [("errors", errors)])
          let (out, evo) := apply_outputs (invalidOuts self) errors3
          (.ret out,
            Event.ctxCreate ::
              (evr ++ evd ++ ev3 ++ evi ++ [Event.delCtx none (some errors3) none] ++ evo))
        else
          let kw4 := rewrite_params self.map_params kw3
          match invoke_transform self loopRunning kw4 with
          | (.error e, evc) =>
            (.raise e,
              Event.ctxCreate ::
                (evr ++ evd ++ ev3 ++ evc ++ cleanup_parameters kw4 (some e) ++
                  [Event.delCtx (some e) none none]))
          | (.ok r, evc) =>
            let (out, evo) := apply_outputs self.outputs r
            (.ret out,
              Event.ctxCreate ::
                (evr ++ evd ++ ev3 ++ evc ++ cleanup_parameters kw4 none ++
                  [Event.delCtx none none none] ++ evo))

/-! ### Route configuration, mirroring `hug_core/routing.py`

A route is a Python dict from option names to values.  Successive
assignments of distinct keys append in insertion order, so the
constructors are rendered as concatenations of guarded singleton
entries. -/

/-- A guarded route entry: `if cond: route[key] = value`. -/
def optEntry (c : Bool) (k : String) (v : Val) : Dict :=
  if c then [(k, v)] else []

/-- `(requires,) if not isinstance(requires, (tuple, list)) else requires`. -/
def normRequires (v : Val) : Val :=
  if isListVal v then v else Val.vlist [v]

/-- Model of constructing `LocalRouter(**kw)`: `LocalRouter.__init__`
consumes `directives`, `validate` and `version`; `InternalValidation.__init__`
consumes `raise_on_invalid`, `on_invalid` and `output_invalid`;
`Router.__init__` consumes `transform`, `output`, `api`, `requires`,
`map_params` and `args` and silently drops any remaining keyword arguments
(in particular `skip_directives` and `skip_validation`).  Entries appear in
the order the constructor chain assigns them. -/
def local_router_init (kw : Dict) : Dict :=
  let dirs := (dlookup kw "directives").getD (Val.vbool true)
  let validate := (dlookup kw "validate").getD (Val.vbool true)
  let version := (dlookup kw "version").getD Val.vnone
  let raise_on_invalid := (dlookup kw "raise_on_invalid").getD (Val.vbool false)
  let on_invalid := (dlookup kw "on_invalid").getD Val.vnone
  let output_invalid := (dlookup kw "output_invalid").getD Val.vnone
  let transform := (dlookup kw "transform").getD Val.vnone
  let output := (dlookup kw "output").getD Val.vnone
  let api := (dlookup kw "api").getD Val.vnone
  let requires := (dlookup kw "requires").getD (Val.vlist [])
  let map_params := (dlookup kw "map_params").getD Val.vnone
  let args := (dlookup kw "args").getD Val.vnone
  optEntry (!isNone transform) "transform" transform ++
    optEntry (truthy output) "output" output ++
    optEntry (truthy api) "api" api ++
    optEntry (truthy requires) "requires" (normRequires requires) ++
    optEntry (truthy map_params) "map_params" map_params ++
    optEntry (truthy args) "args" args ++
    optEntry (truthy raise_on_invalid) "raise_on_invalid" raise_on_invalid ++
    optEntry (!isNone on_invalid) "on_invalid" on_invalid ++
    optEntry (!isNone output_invalid) "output_invalid" output_invalid ++
    optEntry (!isNone version) "version" version ++
    optEntry (!truthy dirs) "skip_directives" (Val.vbool true) ++
    optEntry (!truthy validate) "skip_validation" (Val.vbool true)

/-- Model of `Router.where` on a `LocalRouter`: copy the receiver route,
update it with the overrides, and rebuild through the constructor chain. -/
def router_where (r overrides : Dict) : Dict :=
  local_router_init (dupdate r overrides)

/-- `Router.output`. -/
def lr_output (r : Dict) (formatter : Val) : Dict :=
  router_where r [("output", formatter)]

/-- `Router.transform`. -/
def lr_transform (r : Dict) (function : Val) : Dict :=
  router_where r [("transform", function)]

/-- `LocalRouter.validate` (the enforce toggle). -/
def lr_validate (r : Dict) (enforce : Val) : Dict :=
  router_where r [("validate", enforce)]

/-- The tuple stored under the `requires` key, for `Router.requires`. -/
def routeRequiresList (r : Dict) : List Val :=
  match dlookup r "requires" with
  | some (Val.vlist l) => l
  | some v => [v]
  | none => []

/-- `Router.requires`: appends to the existing requirement tuple. -/
def lr_requires (r : Dict) (requirements : List Val) : Dict :=
  router_where r [("requires", Val.vlist (routeRequiresList r ++ requirements))]

/-- `Router.map_params`. -/
def lr_map_params (r : Dict) (m : Val) : Dict :=
  router_where r [("map_params", m)]

/-- `InternalValidation.raise_on_invalid`. -/
def lr_raise_on_invalid (r : Dict) (setting : Val) : Dict :=
  router_where r [("raise_on_invalid", setting)]

/-- `InternalValidation.on_invalid`. -/
def lr_on_invalid (r : Dict) (function : Val) : Dict :=
  router_where r [("on_invalid", function)]

/-- `InternalValidation.output_invalid`. -/
def lr_output_invalid (r : Dict) (handler : Val) : Dict :=
  router_where r [("output_invalid", handler)]

/-- `LocalRouter.directives` (the use toggle). -/
def lr_directives (r : Dict) (use : Val) : Dict :=
  router_where r [("directives", use)]

/-- `LocalRouter.version`. -/
def lr_version (r : Dict) (supported : Val) : Dict :=
  router_where r [("version", supported)]

/-- How the constructor chain stores one keyword value under a guard:
`none` when the guard rejects it, the value itself otherwise. -/
def storeOpt (cond : Val → Bool) (x : Option Val) : Option Val :=
  match x with
  | some t => if cond t then some t else none
  | none => none

/-- How the constructor chain stores the `requires` keyword: kept only when
truthy, wrapped into a one-element tuple when not already a tuple/list. -/
def storeRequires (x : Option Val) : Option Val :=
  match x with
  | some t => if truthy t then some (normRequires t) else none
  | none => none

/-- The ten value-bearing route keys settable through chainable calls. -/
def chainKeys : List String :=
  ["transform", "output", "api", "requires", "map_params", "args",
    "raise_on_invalid", "on_invalid", "output_invalid", "version"]

/-- The storage discipline of the constructor chain per route key. -/
def storeFor (k : String) (x : Option Val) : Option Val :=
  if k = "transform" then storeOpt (fun t => !isNone t) x
  else if k = "output" then storeOpt truthy x
  else if k = "api" then storeOpt truthy x
  else if k = "requires" then storeRequires x
  else if k = "map_params" then storeOpt truthy x
  else if k = "args" then storeOpt truthy x
  else if k = "raise_on_invalid" then storeOpt truthy x
  else if k = "on_invalid" then storeOpt (fun t => !isNone t) x
  else if k = "output_invalid" then storeOpt (fun t => !isNone t) x
  else if k = "version" then storeOpt (fun t => !isNone t) x
  else none

/-! ### Descriptor construction, mirroring `Interfaces.__init__` and
`Interface.__init__` -/

/-- Modelled from the spec: the output of the Signature Introspector
(`hug_core/introspect.py` is not under src).  Per spec section 4.1 it yields
the ordered parameter names (with the variadic `*args` / `**kwargs` slots
already popped, as lines 79-84 of `interface.py` do), the declared default
values, and whether the callable is a bound method. -/
structure SigSpec where
  parameters : List String
  defaultVals : List Val
  is_method : Bool

/-- The signature-derived fields of the per-function `Interfaces`
descriptor relevant here. -/
structure InterfacesSig where
  parameters : List String
  required : List String
  defaults : Dict

/-- Model of `Interfaces.__init__` lines 84-90: `defaults` pairs the
trailing parameters with the declared defaults
(`dict(zip(reversed(parameters), reversed(spec.__defaults__ or ())))`),
`required` is the leading slice `parameters[: -(len(defaults)) or None]`,
and for bound methods the receiver is stripped from `parameters` and
`required` (but not from `defaults`). -/
def interfaces_sig (s : SigSpec) : InterfacesSig :=
  let parameters := s.parameters
  let defaults := dictOfPairs (parameters.reverse.zip s.defaultVals.reverse)
  let required := parameters.take (parameters.length - s.defaultVals.length)
  if s.is_method then
    { parameters := parameters.drop 1, required := required.drop 1, defaults := defaults }
  else
    { parameters := parameters, required := required, defaults := defaults }

/-- The route fields `Interface.__init__` reads when resolving parameters:
an optional explicit parameter list, explicit defaults, and the
`map_params` rename map. -/
structure RouteCfg where
  parameters : Option (List String)
  defaults : Dict
  map_params : AList String

/-- The substitution `interface_name if param == internal_name else param`. -/
def subName (internal iface p : String) : String :=
  if p = internal then iface else p

/-- One iteration of the `map_params` loop in `Interface.__init__`: move
the default entry from the internal to the interface name, and rewrite the
name inside `parameters` and `required`. -/
def renameStep (st : InterfacesSig) (iface internal : String) : InterfacesSig :=
  let defaults :=
    if dmem st.defaults internal then
      dinsert (dremove st.defaults internal) iface ((dlookup st.defaults internal).getD Val.vnone)
    else st.defaults
  let parameters :=
    if internal ∈ st.parameters then st.parameters.map (subName internal iface)
    else st.parameters
  let required :=
    if internal ∈ st.required then st.required.map (subName internal iface)
    else st.required
  { parameters := parameters, required := required, defaults := defaults }

/-- The whole `map_params` loop. -/
def apply_map_params (mp : AList String) (st : InterfacesSig) : InterfacesSig :=
  mp.foldl (fun st p => renameStep st p.1 p.2) st

/-- The pre-rename resolution of `Interface.__init__`: descriptor fields,
unless the route supplies an explicit parameter list (in which case
`required` is the parameters without a route default). -/
def baseFields (route : RouteCfg) (itf : InterfacesSig) : InterfacesSig :=
  match route.parameters with
  | none => itf
  | some ps =>
    { parameters := ps
      defaults := route.defaults
      required := ps.filter (fun p => !dmem route.defaults p) }

/-- Model of the parameter-resolution part of `Interface.__init__` lines
173-216: take parameters / required / defaults from the descriptor unless
the route supplies an explicit parameter list, then apply the `map_params`
renames.  (The same block also rekeys `input_transformations` and
`all_parameters`; those fields are not involved in the claims proved about
this function.) -/
def interface_fields (route : RouteCfg) (itf : InterfacesSig) : InterfacesSig :=
  apply_map_params route.map_params (baseFields route itf)

/-- The signature of `f(a, b=1)`. -/
def s10model : SigSpec :=
  { parameters := ["a", "b"], defaultVals := [Val.vint 1], is_method := false }

/-- A route renaming internal `b` to the interface name `a`, which
collides with the untouched parameter `a`. -/
def r10model : RouteCfg := { parameters := none, defaults := [], map_params := [("a", "b")] }

/-- A route renaming internal `b` to the fresh interface name `x`. -/
def r10fresh : RouteCfg := { parameters := none, defaults := [], map_params := [("x", "b")] }

/-- Model of the descriptor cache in `Interface.__init__` lines 162-166:
`if not hasattr(function, "interface"): function.__dict__["interface"] =
Interfaces(...)`.  The state is the function object's cached descriptor;
the returned `Nat` counts how many times signature introspection ran. -/
def ensure_interfaces (s : SigSpec) (cache : Option InterfacesSig) :
    InterfacesSig × Option InterfacesSig × Nat :=
  match cache with
  | some i => (i, some i, 0)
  | none =>
    let i := interfaces_sig s
    (i, some i, 1)

/-- Model of the directive merge in `Interface.__init__` lines 238-243:
start from the API-level directives matched by parameter name
(`set(parameters).intersection(defined_directives)`) and update with the
directives declared in the function's own annotations. -/
def interface_directives_init (defined : AList Directive) (parameters : List String)
    (ann : AList Directive) : AList Directive :=
  let used := parameters.filterMap fun p => (dlookup defined p).map fun d => (p, d)
  dupdate used ann

/-! ### Event classifiers and observation predicates -/

/-- Whether the event is a context-teardown (`delete_context`) call. -/
def isDelCtxEv : Event → Bool
  | .delCtx _ _ _ => true
  | _ => false

/-- Whether the event is a per-parameter cleanup call. -/
def isCleanupEv : Event → Bool
  | .cleanupRun _ _ => true
  | _ => false

/-- Whether the event is an invocation of the wrapped function. -/
def isFnCallEv : Event → Bool
  | .fnCall => true
  | _ => false

/-- Whether the event is a directive factory invocation. -/
def isDirRunEv : Event → Bool
  | .dirRun _ => true
  | _ => false

/-- Whether the event is a directive factory invocation for parameter `p`. -/
def isDirRunFor (p : String) : Event → Bool
  | .dirRun q => q = p
  | _ => false

/-- Whether the event is an input-transformation handler call. -/
def isHandlerEv : Event → Bool
  | .handlerCtxCall _ => true
  | .handlerPlainCall _ => true
  | _ => false

/-- Whether the event is a handler call or the secondary-validator call
(the observable work of the validation phase). -/
def isValidationEv : Event → Bool
  | .handlerCtxCall _ => true
  | .handlerPlainCall _ => true
  | .validateFnRun => true
  | _ => false

/-- Whether the event is a requirement-predicate evaluation. -/
def isReqEvalEv : Event → Bool
  | .reqEval _ _ => true
  | _ => false

/-- Whether the event is a teardown call with a non-None `errors` keyword. -/
def isDelCtxErrorsEv : Event → Bool
  | .delCtx _ (some _) _ => true
  | _ => false

/-- Whether the event is a teardown call with a non-None `lacks_requirement`
keyword. -/
def isDelCtxLacksEv : Event → Bool
  | .delCtx _ _ (some _) => true
  | _ => false

/-- The teardown ordering guarantee for one trace: the trace splits around a
single teardown event, with no further teardown anywhere and no cleanup
after it (so every cleanup precedes the teardown, which precedes the
return). -/
def teardownDiscipline (tr : List Event) : Prop :=
  ∃ l e r, tr = l ++ e :: r ∧ isDelCtxEv e = true ∧
    l.countP isDelCtxEv = 0 ∧ r.countP isDelCtxEv = 0 ∧ r.countP isCleanupEv = 0

/-- Index and conclusion of the first failing requirement, if any. -/
def firstFailing : Nat → List Val → Option (Nat × Val)
  | _, [] => none
  | i, r :: rest => if reqFailing r then some (i, r) else firstFailing (i + 1) rest

/-- The requirement-evaluation events for a run over the given conclusions,
starting at the given index. -/
def reqEvalEventsGo : Nat → List Val → List Event
  | _, [] => []
  | i, r :: rest => Event.reqEval i r :: reqEvalEventsGo (i + 1) rest

/-- The events of a validation-phase result. -/
def vresEvents : VRes → List Event
  | .raised _ ev => ev
  | .done _ _ ev => ev

/-- The events of a validation-loop result. -/
def vloopEvents : VLoopRes → List Event
  | .raised _ ev => ev
  | .cont _ _ ev => ev

/-! ### Concrete fixtures used by witnesses and counterexamples -/

/-- A plain synchronous function returning 42. -/
def fnReturn42 : FnModel := { is_coroutine := false, run := fun _ => .ok (Val.vint 42) }

/-- A minimal bound Local interface over a one-parameter function with no
route options configured. -/
def baseInterface : LocalInterface :=
  { parameters := ["x"], required := ["x"], defaults := [], directives := []
    input_transformations := [], transform := none, outputs := none
    invalid_outputs := none, on_invalid := none, raise_on_invalid := false
    requires := [], validate_function := none, map_params := []
    skip_directives := false, skip_validation := false, context := Val.vdict []
    fn := fnReturn42 }

/-- A `ValueError("not a number")` instance. -/
def valueError5 : Exn :=
  .mk "ValueError" "not a number" [Val.vstr "not a number"] .vnone 5

/-- A coercion handler whose context form raises `ValueError` (not a
`TypeError`, so no retry happens). -/
def raisingHandler : Handler :=
  { withCtx := fun _ _ => .error valueError5, plain := fun v => .ok v }

/-- `baseInterface` with `raise_on_invalid` set and a raising coercion
handler registered for `x`. -/
def roiInterface : LocalInterface :=
  { baseInterface with
      raise_on_invalid := true
      input_transformations := [("x", raisingHandler)] }

/-- A `CustomException("boom")` instance. -/
def boomExn : Exn := .mk "CustomException" "boom" [Val.vstr "boom"] .vnone 9

/-- `baseInterface` over a function that raises `boomExn`. -/
def boomInterface : LocalInterface :=
  { baseInterface with fn := { is_coroutine := false, run := fun _ => .error boomExn } }

/-- `baseInterface` over a two-parameter function with both parameters
required. -/
def twoParamInterface : LocalInterface :=
  { baseInterface with parameters := ["x", "y"], required := ["x", "y"] }

/-- The required parameters not bound after positional binding — the
"omitted required parameters" of a call. -/
def missingRequired (self : LocalInterface) (args : List Val) (kw0 : Dict) : List String :=
  self.required.filter fun r => !dmem (kwBound self args kw0) r

/-- `baseInterface` with one requirement predicate whose conclusion is the
string `"forbidden"`. -/
def reqInterface : LocalInterface :=
  { baseInterface with requires := [Val.vstr "forbidden"] }

/-- A `TypeError` instance (as raised by a handler called with an
unexpected `context` keyword). -/
def typeErrorExn : Exn :=
  .mk "TypeError" "got an unexpected keyword argument" [] .vnone 7

/-- A handler that rejects the context call shape with `TypeError` and
succeeds when called with the value alone. -/
def ctxlessHandler : Handler :=
  { withCtx := fun _ _ => .error typeErrorExn, plain := fun v => .ok v }

/-- A coroutine function whose body completes with 7. -/
def coroFn : FnModel := { is_coroutine := true, run := fun _ => .ok (Val.vint 7) }

/-- An API-level (global) directive factory named by its parameter. -/
def globalThing : Directive := fun _ => Val.vstr "global"

/-- An annotation-level (local) directive factory for the same name. -/
def localThing : Directive := fun _ => Val.vstr "local"

/-! ## Theorems -/

/-! ### Dictionary lemmas -/

@[simp] theorem dlookup_nil {α : Type} (k : String) : dlookup ([] : AList α) k = none := rfl

@[simp] theorem dlookup_cons {α : Type} (p : String × α) (t : AList α) (k : String) :
    dlookup (p :: t) k = if k = p.1 then some p.2 else dlookup t k := rfl

theorem dlookup_append {α : Type} (a b : AList α) (k : String) :
    dlookup (a ++ b) k = ((dlookup a k).rec (dlookup b k) (fun v => some v) : Option α) := by
  induction a with
  | nil => simp
  | cons p t ih =>
      by_cases h : k = p.1 <;> simp [dlookup, h, ih]

theorem dlookup_dinsert {α : Type} (d : AList α) (k : String) (v : α) (key : String) :
    dlookup (dinsert d k v) key = if key = k then some v else dlookup d key := by
  induction d with
  | nil => simp [dinsert, dlookup]
  | cons p t ih =>
      by_cases h : k = p.1
      · subst h
        by_cases h2 : key = p.1 <;> simp [dinsert, dlookup, h2]
      · have hne : ¬(p.1 = k) := fun hc => h hc.symm
        by_cases h2 : key = p.1
        · subst h2
          simp [dinsert, dlookup, h, hne]
        · simp [dinsert, dlookup, h, h2, ih]

theorem dmem_dinsert {α : Type} (d : AList α) (k : String) (v : α) (key : String) :
    dmem (dinsert d k v) key = (key = k || dmem d key) := by
  by_cases h : key = k <;> simp [dmem, dlookup_dinsert, h]

/-! ### Trace-shape lemmas for the pipeline phases -/

theorem countP_zero_of {p : Event → Bool} {l : List Event}
    (h : ∀ e ∈ l, p e = false) : l.countP p = 0 := by
  induction l with
  | nil => rfl
  | cons a t ih =>
      rw [List.countP_cons]
      simp [h a (by simp), ih fun e he => h e (by simp [he])]

theorem checkReqGo_events (n : Nat) (l : List Val) :
    ∀ e ∈ (checkReqGo n l).2, isReqEvalEv e = true := by
  induction l generalizing n with
  | nil => intro e he; simp [checkReqGo] at he
  | cons r rest ih =>
      intro e he
      by_cases h : reqFailing r
      · simp [checkReqGo, h] at he
        subst he; rfl
      · rcases hc : checkReqGo (n + 1) rest with ⟨o, ev⟩
        simp [checkReqGo, h, hc] at he
        rcases he with he | he
        · subst he; rfl
        · exact ih (n + 1) e (by rw [hc]; exact he)

theorem requiresLoopGo_events (reqs l : List Val) :
    ∀ e ∈ (requiresLoopGo reqs l).2, isReqEvalEv e = true := by
  induction l with
  | nil => intro e he; simp [requiresLoopGo] at he
  | cons x rest ih =>
      intro e he
      rcases hc : check_requirements reqs with ⟨o, ev⟩
      have hev : ∀ e ∈ ev, isReqEvalEv e = true := by
        intro e he2
        exact checkReqGo_events 0 reqs e (by rw [show checkReqGo 0 reqs = (o, ev) from hc]; exact he2)
      cases o with
      | some v =>
          simp [requiresLoopGo, hc] at he
          exact hev e he
      | none =>
          simp [requiresLoopGo, hc] at he
          rcases he with he | he
          · exact hev e he
          · exact ih e he

theorem requires_loop_events (reqs : List Val) :
    ∀ e ∈ (requires_loop reqs).2, isReqEvalEv e = true :=
  requiresLoopGo_events reqs reqs

theorem inject_directives_events (dirs : AList Directive) (defaults kw : Dict) :
    ∀ e ∈ (inject_directives dirs defaults kw).2, isDirRunEv e = true := by
  induction dirs generalizing kw with
  | nil => intro e he; simp [inject_directives] at he
  | cons pd rest ih =>
      obtain ⟨p, d⟩ := pd
      intro e he
      by_cases h : dmem kw p
      · simp [inject_directives, h] at he
        exact ih kw e he
      · rcases hc : inject_directives rest defaults (dinsert kw p (d (dlookup defaults p))) with ⟨kw2, ev⟩
        simp [inject_directives, h, hc] at he
        rcases he with he | he
        · subst he; rfl
        · exact ih _ e (by rw [hc]; exact he)

theorem hcallEvents_mem (key : String) (l : List HCall) :
    ∀ e ∈ hcallEvents key l, isValidationEv e = true := by
  intro e he
  simp [hcallEvents] at he
  obtain ⟨c, _, rfl⟩ := he
  cases c <;> rfl

theorem validateLoop_events (roi : Bool) (ctx : Val) (l : List (String × Handler))
    (errors kw : Dict) (ev : List Event) (hacc : ∀ e ∈ ev, isValidationEv e = true) :
    ∀ e ∈ vloopEvents (validateLoop roi ctx l errors kw ev), isValidationEv e = true := by
  induction l generalizing errors kw ev with
  | nil =>
      intro e he
      simp [validateLoop, vloopEvents] at he
      exact hacc e he
  | cons kh rest ih =>
      obtain ⟨key, th⟩ := kh
      intro e he
      cases hl : dlookup kw key with
      | none =>
          simp only [validateLoop, hl] at he
          exact ih errors kw ev hacc e he
      | some v =>
          rcases hi : initialize_handler th v ctx with ⟨res, calls⟩
          have hev2 : ∀ e ∈ ev ++ hcallEvents key calls, isValidationEv e = true := by
            intro e he2
            rcases List.mem_append.mp he2 with h2 | h2
            · exact hacc e h2
            · exact hcallEvents_mem key calls e h2
          cases res with
          | ok r =>
              simp only [validateLoop, hl, hi] at he
              exact ih errors (dinsert kw key r) _ hev2 e he
          | error ex =>
              simp only [validateLoop, hl, hi] at he
              by_cases hroi : roi = true
              · rw [if_pos hroi] at he
                simp only [vloopEvents] at he
                exact hev2 e he
              · rw [if_neg hroi] at he
                exact ih _ kw _ hev2 e he

theorem validate_events (self : LocalInterface) (kw : Dict) (ctx : Val) :
    ∀ e ∈ vresEvents (validate self kw ctx), isValidationEv e = true := by
  intro e he
  have hloop := validateLoop_events self.raise_on_invalid ctx self.input_transformations [] kw []
    (by simp) e
  cases hv : validateLoop self.raise_on_invalid ctx self.input_transformations [] kw [] with
  | raised ex ev =>
      rw [hv] at hloop
      simp only [validate, hv, vresEvents] at he
      exact hloop (by simpa [vloopEvents] using he)
  | cont errors kw2 ev =>
      rw [hv] at hloop
      simp only [validate, hv] at he
      by_cases hemp : (addRequiredErrors self.required kw2 errors).isEmpty
      · rw [if_pos hemp] at he
        cases hvf : self.validate_function with
        | none =>
            rw [hvf] at he
            simp only [vresEvents] at he
            exact hloop (by simpa [vloopEvents] using he)
        | some f =>
            rw [hvf] at he
            simp only [vresEvents] at he
            rcases List.mem_append.mp he with h2 | h2
            · exact hloop (by simpa [vloopEvents] using h2)
            · simp at h2
              subst h2; rfl
      · rw [if_neg hemp] at he
        simp only [vresEvents] at he
        exact hloop (by simpa [vloopEvents] using he)

theorem validationStage_events (self : LocalInterface) (args : List Val) (kw0 : Dict) :
    ∀ e ∈ vresEvents (validationStage self args kw0), isValidationEv e = true := by
  by_cases h : self.skip_validation
  · simp [validationStage, h, vresEvents]
  · simp only [validationStage, if_neg h]
    exact validate_events self _ self.context

theorem directivesStage_events (self : LocalInterface) (args : List Val) (kw0 : Dict) :
    ∀ e ∈ (directivesStage self args kw0).2, isDirRunEv e = true := by
  by_cases h : self.skip_directives
  · simp [directivesStage, h]
  · simp only [directivesStage, if_neg h]
    exact inject_directives_events self.directives self.defaults _

theorem apply_outputs_events (o : Option (Val → Val)) (v : Val) :
    ∀ e ∈ (apply_outputs o v).2, e = Event.outputRun := by
  cases o <;> simp [apply_outputs]

theorem invoke_transform_events (self : LocalInterface) (loopRunning : Bool) (kw : Dict) :
    ∀ e ∈ (invoke_transform self loopRunning kw).2,
      e = Event.fnCall ∨ e = Event.transformRun := by
  cases hic : interfaces_call self.fn loopRunning kw with
  | error ex => simp [invoke_transform, hic]
  | ok r =>
      cases ht : self.transform with
      | none => simp [invoke_transform, hic, ht]
      | some t => cases htr : t r <;> simp [invoke_transform, hic, ht, htr]

theorem cleanup_parameters_events (kw : Dict) (ex : Option Exn) :
    ∀ e ∈ cleanup_parameters kw ex, isCleanupEv e = true := by
  intro e he
  simp [cleanup_parameters] at he
  obtain ⟨a, b, _, _, rfl⟩ := he
  rfl

theorem validateLoop_no_raise (ctx : Val) (l : List (String × Handler))
    (errors kw : Dict) (ev : List Event) :
    ∃ errs2 kw2 ev2, validateLoop false ctx l errors kw ev = .cont errs2 kw2 ev2 := by
  induction l generalizing errors kw ev with
  | nil => exact ⟨_, _, _, rfl⟩
  | cons kh rest ih =>
      obtain ⟨key, th⟩ := kh
      cases hl : dlookup kw key with
      | none => simpa only [validateLoop, hl] using ih errors kw ev
      | some v =>
          rcases hi : initialize_handler th v ctx with ⟨res, calls⟩
          cases res with
          | ok r => simpa only [validateLoop, hl, hi] using ih errors (dinsert kw key r) _
          | error ex =>
              obtain ⟨a, b, c, hx⟩ := ih (dinsert errors key (errorEntry ex)) kw (ev ++ hcallEvents key calls)
              refine ⟨a, b, c, ?_⟩
              simp only [validateLoop, hl, hi]
              rw [if_neg (by simp)]
              exact hx

theorem validationStage_done (self : LocalInterface) (args : List Val) (kw0 : Dict)
    (h : self.raise_on_invalid = false) :
    ∃ errsv kw2 ev2, validationStage self args kw0 = .done errsv kw2 ev2 := by
  by_cases hs : self.skip_validation
  · exact ⟨_, _, _, by simp only [validationStage, if_pos hs]; rfl⟩
  · obtain ⟨errors, kw2, ev2, hv⟩ :=
      validateLoop_no_raise self.context self.input_transformations []
        ((directivesStage self args kw0).1) []
    simp only [validationStage, if_neg hs, validate, h, hv]
    by_cases hemp : (addRequiredErrors self.required kw2 errors).isEmpty
    · cases hvf : self.validate_function with
      | none => exact ⟨_, _, _, by rw [if_pos hemp]⟩
      | some f => exact ⟨_, _, _, by rw [if_pos hemp]⟩
    · exact ⟨_, _, _, by rw [if_neg hemp]⟩

theorem onInvalidApply_events (o : Option (Val → Val)) (v : Val) :
    ∀ e ∈ (onInvalidApply o v).2, e = Event.onInvalidRun := by
  cases o <;> simp [onInvalidApply]

theorem not_teardown_or_cleanup {e : Event}
    (h : isReqEvalEv e = true ∨ isDirRunEv e = true ∨ isValidationEv e = true ∨
      e = Event.fnCall ∨ e = Event.transformRun ∨ e = Event.outputRun ∨
      e = Event.ctxCreate ∨ e = Event.onInvalidRun) :
    isDelCtxEv e = false ∧ isCleanupEv e = false := by
  cases e <;> simp_all [isReqEvalEv, isDirRunEv, isValidationEv, isDelCtxEv, isCleanupEv]

theorem cleanup_not_teardown {e : Event} (h : isCleanupEv e = true) : isDelCtxEv e = false := by
  cases e <;> simp_all [isCleanupEv, isDelCtxEv]

/-! ### C1: context teardown discipline -/

/-- C1 (amended): on every invocation of a bound Local interface that does
not oversupply positional arguments and whose route does not set
`raise_on_invalid`, the context teardown function is invoked exactly once
before the call returns or re-raises — on the success, requirement-failure,
validation-failure and function/transform-exception paths alike — and
always after all per-parameter cleanup.  (The original claim also covered
the path where `raise_on_invalid` is set and a coercion handler raises;
there the exception propagates with no teardown at all, see the
counterexample.) -/
theorem c1_teardown_discipline (self : LocalInterface) (loopRunning : Bool)
    (args : List Val) (kw0 : Dict)
    (hargs : args.length ≤ self.parameters.length)
    (hroi : self.raise_on_invalid = false) :
    teardownDiscipline (local_call self loopRunning args kw0).2 := by
  rcases hreq : requires_loop self.requires with ⟨o, evr⟩
  have hevr : ∀ e ∈ evr, isDelCtxEv e = false ∧ isCleanupEv e = false := by
    intro e he
    exact not_teardown_or_cleanup
      (Or.inl (requires_loop_events self.requires e (by rw [hreq]; exact he)))
  have h1d : evr.countP isDelCtxEv = 0 := countP_zero_of fun e he => (hevr e he).1
  cases o with
  | some v =>
      rcases happ : apply_outputs self.outputs v with ⟨out, evo⟩
      have hevo : ∀ e ∈ evo, isDelCtxEv e = false ∧ isCleanupEv e = false := by
        intro e he
        have hx := apply_outputs_events self.outputs v e (by rw [happ]; exact he)
        exact not_teardown_or_cleanup (by tauto)
      refine ⟨Event.ctxCreate :: evr, Event.delCtx none none (some v), evo, ?_, rfl, ?_, ?_, ?_⟩
      · simp [local_call, hreq, happ]
      · simp [List.countP_cons, h1d, isDelCtxEv]
      · exact countP_zero_of fun e he => (hevo e he).1
      · exact countP_zero_of fun e he => (hevo e he).2
  | none =>
      have hlen : ¬(self.parameters.length < args.length) := by omega
      rcases hdir : directivesStage self args kw0 with ⟨kw2, evd⟩
      have hevd : ∀ e ∈ evd, isDelCtxEv e = false ∧ isCleanupEv e = false := by
        intro e he
        exact not_teardown_or_cleanup
          (Or.inr (Or.inl (directivesStage_events self args kw0 e (by rw [hdir]; exact he))))
      have h2d : evd.countP isDelCtxEv = 0 := countP_zero_of fun e he => (hevd e he).1
      obtain ⟨errsv, kw3, ev3, hval⟩ := validationStage_done self args kw0 hroi
      have hev3 : ∀ e ∈ ev3, isDelCtxEv e = false ∧ isCleanupEv e = false := by
        intro e he
        exact not_teardown_or_cleanup
          (Or.inr (Or.inr (Or.inl (validationStage_events self args kw0 e (by rw [hval]; exact he)))))
      have h3d : ev3.countP isDelCtxEv = 0 := countP_zero_of fun e he => (hev3 e he).1
      by_cases htr : truthy errsv
      · rcases hoi : onInvalidApply self.on_invalid (Val.vdict [("errors", errsv)]) with ⟨errors3, evi⟩
        have hevi : ∀ e ∈ evi, isDelCtxEv e = false ∧ isCleanupEv e = false := by
          intro e he
          have hx := onInvalidApply_events self.on_invalid _ e (by rw [hoi]; exact he)
          exact not_teardown_or_cleanup (by tauto)
        have h4d : evi.countP isDelCtxEv = 0 := countP_zero_of fun e he => (hevi e he).1
        rcases happ : apply_outputs (invalidOuts self) errors3 with ⟨out, evo⟩
        have hevo : ∀ e ∈ evo, isDelCtxEv e = false ∧ isCleanupEv e = false := by
          intro e he
          have hx := apply_outputs_events (invalidOuts self) errors3 e (by rw [happ]; exact he)
          exact not_teardown_or_cleanup (by tauto)
        refine ⟨Event.ctxCreate :: (evr ++ evd ++ ev3 ++ evi),
          Event.delCtx none (some errors3) none, evo, ?_, rfl, ?_, ?_, ?_⟩
        · simp [local_call, hreq, hlen, hdir, hval, htr, hoi, happ]
        · simp [List.countP_cons, List.countP_append, h1d, h2d, h3d, h4d, isDelCtxEv]
        · exact countP_zero_of fun e he => (hevo e he).1
        · exact countP_zero_of fun e he => (hevo e he).2
      · rcases hinv : invoke_transform self loopRunning (rewrite_params self.map_params kw3)
          with ⟨res, evc⟩
        have hevc : ∀ e ∈ evc, isDelCtxEv e = false ∧ isCleanupEv e = false := by
          intro e he
          rcases invoke_transform_events self loopRunning _ e (by rw [hinv]; exact he) with h | h
          · exact not_teardown_or_cleanup (by tauto)
          · exact not_teardown_or_cleanup (by tauto)
        have h4d : evc.countP isDelCtxEv = 0 := countP_zero_of fun e he => (hevc e he).1
        cases res with
        | error ex =>
            have h5d : (cleanup_parameters (rewrite_params self.map_params kw3) (some ex)).countP
                isDelCtxEv = 0 :=
              countP_zero_of fun e he =>
                cleanup_not_teardown (cleanup_parameters_events _ _ e he)
            refine ⟨Event.ctxCreate ::
                (evr ++ evd ++ ev3 ++ evc ++ cleanup_parameters (rewrite_params self.map_params kw3) (some ex)),
              Event.delCtx (some ex) none none, [], ?_, rfl, ?_, rfl, rfl⟩
            · simp [local_call, hreq, hlen, hdir, hval, htr, hinv]
            · simp [List.countP_cons, List.countP_append, h1d, h2d, h3d, h4d, h5d, isDelCtxEv]
        | ok r =>
            have h5d : (cleanup_parameters (rewrite_params self.map_params kw3) none).countP
                isDelCtxEv = 0 :=
              countP_zero_of fun e he =>
                cleanup_not_teardown (cleanup_parameters_events _ _ e he)
            rcases happ : apply_outputs self.outputs r with ⟨out, evo⟩
            have hevo : ∀ e ∈ evo, isDelCtxEv e = false ∧ isCleanupEv e = false := by
              intro e he
              have hx := apply_outputs_events self.outputs r e (by rw [happ]; exact he)
              exact not_teardown_or_cleanup (by tauto)
            refine ⟨Event.ctxCreate ::
                (evr ++ evd ++ ev3 ++ evc ++ cleanup_parameters (rewrite_params self.map_params kw3) none),
              Event.delCtx none none none, evo, ?_, rfl, ?_, ?_, ?_⟩
            · simp [local_call, hreq, hlen, hdir, hval, htr, hinv, happ]
            · simp [List.countP_cons, List.countP_append, h1d, h2d, h3d, h4d, h5d, isDelCtxEv]
            · exact countP_zero_of fun e he => (hevo e he).1
            · exact countP_zero_of fun e he => (hevo e he).2

/-- C1 counterexample: with `raise_on_invalid` set and a coercion handler
raising a `ValueError`, the exception propagates and context teardown (and
per-parameter cleanup) is never invoked — refuting exactly-once teardown on
that exit path. -/
theorem c1_counterexample :
    (local_call roiInterface false [Val.vint 0] []).1 = Outcome.raise valueError5 ∧
    (local_call roiInterface false [Val.vint 0] []).2.countP isDelCtxEv = 0 ∧
    (local_call roiInterface false [Val.vint 0] []).2.countP isCleanupEv = 0 :=
  ⟨rfl, rfl, rfl⟩

/-- C1 witness: the discipline theorem applied to a concrete interface and
call. -/
theorem c1_witness :
    [Val.vint 3].length ≤ baseInterface.parameters.length ∧
    baseInterface.raise_on_invalid = false ∧
    teardownDiscipline (local_call baseInterface false [Val.vint 3] []).2 :=
  ⟨by decide, rfl, c1_teardown_discipline baseInterface false [Val.vint 3] [] (by decide) rfl⟩

/-! ### C3: the exception path -/

/-- C3: when the wrapped function or its transform raises, the call first
runs `cleanup(exception=<e>)` over the bound arguments, then tears the
context down with `exception=<e>`, and re-raises the very same exception
value; the trace ends at the teardown and the exception is never turned
into an error mapping. -/
theorem c3_exception_path (self : LocalInterface) (loopRunning : Bool)
    (args : List Val) (kw0 : Dict) (errsv : Val) (kw3 : Dict) (ev3 : List Event) (ex : Exn)
    (hargs : args.length ≤ self.parameters.length)
    (hreq : (requires_loop self.requires).1 = none)
    (hval : validationStage self args kw0 = .done errsv kw3 ev3)
    (htr : truthy errsv = false)
    (hex : (invoke_transform self loopRunning (rewrite_params self.map_params kw3)).1 = .error ex) :
    local_call self loopRunning args kw0 =
      (.raise ex,
        Event.ctxCreate ::
          ((requires_loop self.requires).2 ++ (directivesStage self args kw0).2 ++ ev3 ++
            (invoke_transform self loopRunning (rewrite_params self.map_params kw3)).2 ++
            cleanup_parameters (rewrite_params self.map_params kw3) (some ex) ++
            [Event.delCtx (some ex) none none])) := by
  rcases hreqp : requires_loop self.requires with ⟨o, evr⟩
  rw [hreqp] at hreq
  simp only at hreq
  subst hreq
  have hlen : ¬self.parameters.length < args.length := by omega
  rcases hinv : invoke_transform self loopRunning (rewrite_params self.map_params kw3)
    with ⟨res, evc⟩
  rw [hinv] at hex
  simp only at hex
  subst hex
  simp [local_call, hreqp, hlen, hval, htr, hinv]

/-- C3 witness: the exception-path theorem applied to a concrete interface
whose function raises `CustomException`, with a cleanup-bearing argument. -/
theorem c3_witness :
    local_call boomInterface false [Val.vobj 3 true] [] =
      (.raise boomExn,
        [Event.ctxCreate, Event.fnCall, Event.cleanupRun "x" (some boomExn),
          Event.delCtx (some boomExn) none none]) := by
  have h := c3_exception_path boomInterface false [Val.vobj 3 true] [] (Val.vdict [])
    [("x", Val.vobj 3 true)] [] boomExn (by decide) rfl rfl rfl rfl
  simpa using h

/-! ### C2: missing required parameters -/

theorem validateLoop_cont_facts (ctx : Val) (l : List (String × Handler))
    (errors kw : Dict) (ev : List Event) :
    ∃ errs kw2 ev2, validateLoop false ctx l errors kw ev = .cont errs kw2 ev2 ∧
      (∀ k, dmem kw2 k = dmem kw k) ∧
      (∀ k, dmem errs k = true → dmem errors k = true ∨ dmem kw k = true) := by
  induction l generalizing errors kw ev with
  | nil => exact ⟨errors, kw, ev, rfl, fun _ => rfl, fun _ h => Or.inl h⟩
  | cons kh rest ih =>
      obtain ⟨key, th⟩ := kh
      cases hl : dlookup kw key with
      | none =>
          obtain ⟨errs, kw2, ev2, hx, hm, he⟩ := ih errors kw ev
          exact ⟨errs, kw2, ev2, by simp only [validateLoop, hl]; exact hx, hm, he⟩
      | some v =>
          rcases hi : initialize_handler th v ctx with ⟨res, calls⟩
          have hmem : dmem kw key = true := by simp [dmem, hl]
          cases res with
          | ok r =>
              obtain ⟨errs, kw2, ev2, hx, hm, he⟩ := ih errors (dinsert kw key r) _
              refine ⟨errs, kw2, ev2, by simp only [validateLoop, hl, hi]; exact hx, ?_, ?_⟩
              · intro k
                rw [hm k, dmem_dinsert]
                by_cases hk : k = key
                · subst hk; simp [hmem]
                · simp [hk]
              · intro k h
                rcases he k h with h2 | h2
                · exact Or.inl h2
                · rw [dmem_dinsert] at h2
                  by_cases hk : k = key
                  · subst hk; exact Or.inr hmem
                  · simp [hk] at h2; exact Or.inr h2
          | error ex =>
              obtain ⟨errs, kw2, ev2, hx, hm, he⟩ := ih (dinsert errors key (errorEntry ex)) kw _
              refine ⟨errs, kw2, ev2, ?_, hm, ?_⟩
              · simp only [validateLoop, hl, hi]
                rw [if_neg (by simp)]
                exact hx
              · intro k h
                rcases he k h with h2 | h2
                · rw [dmem_dinsert] at h2
                  by_cases hk : k = key
                  · subst hk; exact Or.inr hmem
                  · simp [hk] at h2; exact Or.inl h2
                · exact Or.inr h2

theorem addRequired_lookup (required : List String) (kw errors : Dict) (r : String)
    (h : dlookup errors r = some (Val.vstr (requiredMsg r)) ∨
      (r ∈ required ∧ dmem kw r = false)) :
    dlookup (addRequiredErrors required kw errors) r = some (Val.vstr (requiredMsg r)) := by
  induction required generalizing errors with
  | nil =>
      rcases h with h | ⟨h, _⟩
      · exact h
      · simp at h
  | cons a rest ih =>
      rw [show addRequiredErrors (a :: rest) kw errors =
          addRequiredErrors rest kw
            (if dmem kw a then errors else dinsert errors a (Val.vstr (requiredMsg a)))
        from rfl]
      by_cases hma : dmem kw a
      · rw [if_pos hma]
        apply ih
        rcases h with h | ⟨hmem, hmiss⟩
        · exact Or.inl h
        · rcases List.mem_cons.mp hmem with rfl | hmem2
          · rw [hmiss] at hma; cases hma
          · exact Or.inr ⟨hmem2, hmiss⟩
      · rw [if_neg hma]
        apply ih
        by_cases hra : r = a
        · subst hra
          exact Or.inl (by rw [dlookup_dinsert]; simp)
        · rcases h with h | ⟨hmem, hmiss⟩
          · exact Or.inl (by rw [dlookup_dinsert]; simp [hra, h])
          · rcases List.mem_cons.mp hmem with rfl | hmem2
            · exact absurd rfl hra
            · exact Or.inr ⟨hmem2, hmiss⟩

theorem isEmpty_false_of_lookup {α : Type} {d : AList α} {k : String} {v : α}
    (h : dlookup d k = some v) : d.isEmpty = false := by
  cases d
  · simp [dlookup] at h
  · rfl

theorem not_fnCall {e : Event}
    (h : isReqEvalEv e = true ∨ isDirRunEv e = true ∨ isValidationEv e = true ∨
      isCleanupEv e = true ∨ isDelCtxEv e = true ∨ e = Event.outputRun ∨
      e = Event.ctxCreate ∨ e = Event.onInvalidRun ∨ e = Event.transformRun) :
    isFnCallEv e = false := by
  cases e <;>
    simp_all [isReqEvalEv, isDirRunEv, isValidationEv, isCleanupEv, isDelCtxEv, isFnCallEv]

theorem notDelCtxErrors_of_not_teardown {e : Event} (h : isDelCtxEv e = false) :
    isDelCtxErrorsEv e = false := by
  cases e <;> simp_all [isDelCtxEv, isDelCtxErrorsEv]

theorem fn_never_called_on_error_teardown (self : LocalInterface) (loopRunning : Bool)
    (args : List Val) (kw0 : Dict) :
    (local_call self loopRunning args kw0).2.countP isDelCtxErrorsEv = 0 ∨
    (local_call self loopRunning args kw0).2.countP isFnCallEv = 0 := by
  rcases hreqp : requires_loop self.requires with ⟨o, evr⟩
  have hevr : ∀ e ∈ evr, isReqEvalEv e = true := fun e he =>
    requires_loop_events self.requires e (by rw [hreqp]; exact he)
  have hfr : evr.countP isFnCallEv = 0 :=
    countP_zero_of fun e he => not_fnCall (Or.inl (hevr e he))
  cases o with
  | some v =>
      right
      rcases happ : apply_outputs self.outputs v with ⟨out, evo⟩
      have hfo : evo.countP isFnCallEv = 0 := countP_zero_of fun e he => by
        have hx := apply_outputs_events self.outputs v e (by rw [happ]; exact he)
        exact not_fnCall (by tauto)
      simp [local_call, hreqp, happ, List.countP_cons, List.countP_append, hfr, hfo, isFnCallEv]
  | none =>
      by_cases hlen : self.parameters.length < args.length
      · right
        simp [local_call, hreqp, hlen, List.countP_cons, hfr, isFnCallEv]
      · rcases hdir : directivesStage self args kw0 with ⟨kw2, evd⟩
        have hfd : evd.countP isFnCallEv = 0 := countP_zero_of fun e he =>
          not_fnCall (Or.inr (Or.inl (directivesStage_events self args kw0 e (by rw [hdir]; exact he))))
        cases hvs : validationStage self args kw0 with
        | raised ex ev3 =>
            right
            have hf3 : ev3.countP isFnCallEv = 0 := countP_zero_of fun e he =>
              not_fnCall (Or.inr (Or.inr (Or.inl
                (validationStage_events self args kw0 e (by rw [hvs]; exact he)))))
            simp [local_call, hreqp, hlen, hdir, hvs, List.countP_cons, List.countP_append,
              hfr, hfd, hf3, isFnCallEv]
        | done errsv kw3 ev3 =>
            have hf3 : ev3.countP isFnCallEv = 0 := countP_zero_of fun e he =>
              not_fnCall (Or.inr (Or.inr (Or.inl
                (validationStage_events self args kw0 e (by rw [hvs]; exact he)))))
            by_cases htr : truthy errsv
            · right
              rcases hoi : onInvalidApply self.on_invalid (Val.vdict [("errors", errsv)])
                with ⟨errors3, evi⟩
              rcases happ : apply_outputs (invalidOuts self) errors3 with ⟨out, evo⟩
              have hfi : evi.countP isFnCallEv = 0 := countP_zero_of fun e he => by
                have hx := onInvalidApply_events self.on_invalid _ e (by rw [hoi]; exact he)
                exact not_fnCall (by tauto)
              have hfo : evo.countP isFnCallEv = 0 := countP_zero_of fun e he => by
                have hx := apply_outputs_events (invalidOuts self) errors3 e (by rw [happ]; exact he)
                exact not_fnCall (by tauto)
              simp [local_call, hreqp, hlen, hdir, hvs, htr, hoi, happ, List.countP_cons,
                List.countP_append, hfr, hfd, hf3, hfi, hfo, isFnCallEv]
            · left
              have her : evr.countP isDelCtxErrorsEv = 0 := countP_zero_of fun e he =>
                notDelCtxErrors_of_not_teardown
                  (not_teardown_or_cleanup (Or.inl (hevr e he))).1
              have hed : evd.countP isDelCtxErrorsEv = 0 := countP_zero_of fun e he =>
                notDelCtxErrors_of_not_teardown
                  (not_teardown_or_cleanup (Or.inr (Or.inl
                    (directivesStage_events self args kw0 e (by rw [hdir]; exact he))))).1
              have he3 : ev3.countP isDelCtxErrorsEv = 0 := countP_zero_of fun e he =>
                notDelCtxErrors_of_not_teardown
                  (not_teardown_or_cleanup (Or.inr (Or.inr (Or.inl
                    (validationStage_events self args kw0 e (by rw [hvs]; exact he)))))).1
              rcases hinv : invoke_transform self loopRunning (rewrite_params self.map_params kw3)
                with ⟨res, evc⟩
              have hec : evc.countP isDelCtxErrorsEv = 0 := countP_zero_of fun e he => by
                rcases invoke_transform_events self loopRunning _ e (by rw [hinv]; exact he)
                  with h | h
                · exact notDelCtxErrors_of_not_teardown (not_teardown_or_cleanup (by tauto)).1
                · exact notDelCtxErrors_of_not_teardown (not_teardown_or_cleanup (by tauto)).1
              cases res with
              | error ex =>
                  have hcc : (cleanup_parameters (rewrite_params self.map_params kw3)
                      (some ex)).countP isDelCtxErrorsEv = 0 :=
                    countP_zero_of fun e he =>
                      notDelCtxErrors_of_not_teardown
                        (cleanup_not_teardown (cleanup_parameters_events _ _ e he))
                  simp [local_call, hreqp, hlen, hdir, hvs, htr, hinv, List.countP_cons,
                    List.countP_append, her, hed, he3, hec, hcc, isDelCtxErrorsEv]
              | ok r =>
                  have hcc : (cleanup_parameters (rewrite_params self.map_params kw3)
                      none).countP isDelCtxErrorsEv = 0 :=
                    countP_zero_of fun e he =>
                      notDelCtxErrors_of_not_teardown
                        (cleanup_not_teardown (cleanup_parameters_events _ _ e he))
                  rcases happ : apply_outputs self.outputs r with ⟨out, evo⟩
                  have heo : evo.countP isDelCtxErrorsEv = 0 := countP_zero_of fun e he => by
                    have hx := apply_outputs_events self.outputs r e (by rw [happ]; exact he)
                    exact notDelCtxErrors_of_not_teardown (not_teardown_or_cleanup (by tauto)).1
                  simp [local_call, hreqp, hlen, hdir, hvs, htr, hinv, happ, List.countP_cons,
                    List.countP_append, her, hed, he3, hec, hcc, heo, isDelCtxErrorsEv]

/-- C2: calling a bound Local interface (validation not skipped, no
directives, requirements passing, raise-on-invalid unset) while omitting
required parameters returns the raw error mapping shaped
`errors -> (name -> "Required parameter <name> not supplied")` when no
on-invalid transform or output formatter is configured, with every omitted
required parameter mapped to its message; the wrapped function is not
invoked on that call, and more generally no call whose teardown receives a
non-None `errors` ever invokes the wrapped function. -/
theorem c2_missing_required (self : LocalInterface) (loopRunning : Bool)
    (args : List Val) (kw0 : Dict)
    (hargs : args.length ≤ self.parameters.length)
    (hreq : (requires_loop self.requires).1 = none)
    (hsv : self.skip_validation = false)
    (hroi : self.raise_on_invalid = false)
    (hdir : self.directives = [])
    (hno : self.on_invalid = none ∧ self.outputs = none ∧ self.invalid_outputs = none)
    (hmiss : missingRequired self args kw0 ≠ []) :
    (∃ E : Dict,
      (local_call self loopRunning args kw0).1 = .ret (Val.vdict [("errors", Val.vdict E)]) ∧
      (∀ r ∈ missingRequired self args kw0,
        dlookup E r = some (Val.vstr (requiredMsg r))) ∧
      (local_call self loopRunning args kw0).2.countP isFnCallEv = 0) ∧
    (∀ (self2 : LocalInterface) (loop2 : Bool) (args2 : List Val) (kwx : Dict),
      (local_call self2 loop2 args2 kwx).2.countP isDelCtxErrorsEv ≠ 0 →
      (local_call self2 loop2 args2 kwx).2.countP isFnCallEv = 0) := by
  constructor
  · have hkw1 : directivesStage self args kw0 = (kwBound self args kw0, []) := by
      by_cases h : self.skip_directives
      · simp [directivesStage, h]
      · simp [directivesStage, h, hdir, inject_directives]
    obtain ⟨errs, kw2, ev2, hvl, hm, _⟩ :=
      validateLoop_cont_facts self.context self.input_transformations []
        (kwBound self args kw0) []
    have hmlook : ∀ r ∈ missingRequired self args kw0,
        dlookup (addRequiredErrors self.required kw2 errs) r =
          some (Val.vstr (requiredMsg r)) := by
      intro r hr
      simp only [missingRequired, List.mem_filter, Bool.not_eq_eq_eq_not, Bool.not_true] at hr
      apply addRequired_lookup
      right
      exact ⟨hr.1, by rw [hm r]; exact hr.2⟩
    obtain ⟨r0, hr0⟩ : ∃ r, r ∈ missingRequired self args kw0 := by
      cases hmq : missingRequired self args kw0 with
      | nil => exact absurd hmq hmiss
      | cons a t => exact ⟨a, by simp [hmq]⟩
    have hEne : (addRequiredErrors self.required kw2 errs).isEmpty = false :=
      isEmpty_false_of_lookup (hmlook r0 hr0)
    have hvs : validationStage self args kw0 =
        .done (Val.vdict (addRequiredErrors self.required kw2 errs)) kw2 ev2 := by
      simp [validationStage, hsv, hkw1, validate, hroi, hvl, hEne]
    have htr : truthy (Val.vdict (addRequiredErrors self.required kw2 errs)) = true := by
      simp [truthy, hEne]
    rcases hreqp : requires_loop self.requires with ⟨o, evr⟩
    rw [hreqp] at hreq
    simp only at hreq
    subst hreq
    have hlen : ¬self.parameters.length < args.length := by omega
    have hfr : evr.countP isFnCallEv = 0 := countP_zero_of fun e he =>
      not_fnCall (Or.inl (requires_loop_events self.requires e (by rw [hreqp]; exact he)))
    have hf2 : ev2.countP isFnCallEv = 0 := countP_zero_of fun e he =>
      not_fnCall (Or.inr (Or.inr (Or.inl
        (validationStage_events self args kw0 e (by rw [hvs]; exact he)))))
    refine ⟨addRequiredErrors self.required kw2 errs, ?_, hmlook, ?_⟩
    · simp [local_call, hreqp, hlen, hvs, htr, onInvalidApply, hno.1, invalidOuts,
        hno.2.1, hno.2.2, apply_outputs, hkw1]
    · simp [local_call, hreqp, hlen, hvs, htr, onInvalidApply, hno.1, invalidOuts,
        hno.2.1, hno.2.2, apply_outputs, hkw1, List.countP_cons, List.countP_append,
        hfr, hf2, isFnCallEv]
  · intro self2 loop2 args2 kwx hne
    rcases fn_never_called_on_error_teardown self2 loop2 args2 kwx with h | h
    · exact absurd h hne
    · exact h

/-- C2 witness: the theorem applied to a two-required-parameter interface
called with only the first positional argument supplied. -/
theorem c2_witness :
    missingRequired twoParamInterface [Val.vint 1] [] ≠ [] ∧
    (∃ E : Dict,
      (local_call twoParamInterface false [Val.vint 1] []).1 =
        .ret (Val.vdict [("errors", Val.vdict E)]) ∧
      (∀ r ∈ missingRequired twoParamInterface [Val.vint 1] [],
        dlookup E r = some (Val.vstr (requiredMsg r))) ∧
      (local_call twoParamInterface false [Val.vint 1] []).2.countP isFnCallEv = 0) :=
  ⟨by decide,
    (c2_missing_required twoParamInterface false [Val.vint 1] [] (by decide) rfl rfl rfl rfl
      ⟨rfl, rfl, rfl⟩ (by decide)).1⟩

/-! ### C5: requirement short-circuit -/

theorem firstFailing_ge (l : List Val) (m i : Nat) (v : Val)
    (h : firstFailing m l = some (i, v)) : m ≤ i := by
  induction l generalizing m with
  | nil => simp [firstFailing] at h
  | cons r rest ih =>
      by_cases hf : reqFailing r
      · simp [firstFailing, hf] at h
        omega
      · simp [firstFailing, hf] at h
        have := ih (m + 1) h
        omega

theorem checkReqGo_of_firstFailing (l : List Val) (n i : Nat) (v : Val)
    (h : firstFailing n l = some (i, v)) :
    checkReqGo n l = (some v, reqEvalEventsGo n (l.take (i + 1 - n))) := by
  induction l generalizing n with
  | nil => simp [firstFailing] at h
  | cons r rest ih =>
      by_cases hf : reqFailing r
      · simp [firstFailing, hf] at h
        obtain ⟨rfl, rfl⟩ := h
        have h1 : n + 1 - n = 1 := by omega
        simp [checkReqGo, hf, h1, reqEvalEventsGo]
      · simp only [firstFailing, if_neg hf] at h
        have hge := firstFailing_ge rest (n + 1) i v h
        have := ih (n + 1) h
        have h1 : i + 1 - n = (i - n) + 1 := by omega
        have h2 : i + 1 - (n + 1) = i - n := by omega
        rw [h2] at this
        simp [checkReqGo, hf, this, h1, reqEvalEventsGo]

theorem requires_loop_of_firstFailing (reqs : List Val) (i : Nat) (v : Val)
    (h : firstFailing 0 reqs = some (i, v)) :
    requires_loop reqs = (some v, reqEvalEventsGo 0 (reqs.take (i + 1))) := by
  have hc : check_requirements reqs = (some v, reqEvalEventsGo 0 (reqs.take (i + 1))) := by
    have := checkReqGo_of_firstFailing reqs 0 i v h
    simpa using this
  cases reqs with
  | nil => simp [firstFailing] at h
  | cons a rest => simp [requires_loop, requiresLoopGo, hc]

theorem checkReqGo_none (l : List Val) (n : Nat) (h : firstFailing n l = none) :
    (checkReqGo n l).1 = none := by
  induction l generalizing n with
  | nil => rfl
  | cons r rest ih =>
      by_cases hf : reqFailing r
      · simp [firstFailing, hf] at h
      · simp only [firstFailing, if_neg hf] at h
        rcases hc : checkReqGo (n + 1) rest with ⟨o, ev⟩
        have := ih (n + 1) h
        rw [hc] at this
        simp only at this
        subst this
        simp [checkReqGo, hf, hc]

theorem requiresLoopGo_none (reqs l : List Val) (h : firstFailing 0 reqs = none) :
    (requiresLoopGo reqs l).1 = none := by
  induction l with
  | nil => rfl
  | cons x rest ih =>
      rcases hc : check_requirements reqs with ⟨o, ev⟩
      have ho : o = none := by
        have := checkReqGo_none reqs 0 h
        rw [show checkReqGo 0 reqs = (o, ev) from hc] at this
        exact this
      subst ho
      rcases hr : requiresLoopGo reqs rest with ⟨o2, ev2⟩
      rw [hr] at ih
      simp only at ih
      subst ih
      simp [requiresLoopGo, hc, hr]

theorem notDelCtxLacks_of_not_teardown {e : Event} (h : isDelCtxEv e = false) :
    isDelCtxLacksEv e = false := by
  cases e <;> simp_all [isDelCtxEv, isDelCtxLacksEv]

theorem main_path_no_lacks (self : LocalInterface) (loopRunning : Bool)
    (args : List Val) (kw0 : Dict)
    (hnone : (requires_loop self.requires).1 = none) :
    (local_call self loopRunning args kw0).2.countP isDelCtxLacksEv = 0 := by
  rcases hreqp : requires_loop self.requires with ⟨o, evr⟩
  rw [hreqp] at hnone
  simp only at hnone
  subst hnone
  have her : evr.countP isDelCtxLacksEv = 0 := countP_zero_of fun e he =>
    notDelCtxLacks_of_not_teardown
      (not_teardown_or_cleanup (Or.inl
        (requires_loop_events self.requires e (by rw [hreqp]; exact he)))).1
  by_cases hlen : self.parameters.length < args.length
  · simp [local_call, hreqp, hlen, List.countP_cons, her, isDelCtxLacksEv]
  · rcases hdir : directivesStage self args kw0 with ⟨kw2, evd⟩
    have hed : evd.countP isDelCtxLacksEv = 0 := countP_zero_of fun e he =>
      notDelCtxLacks_of_not_teardown
        (not_teardown_or_cleanup (Or.inr (Or.inl
          (directivesStage_events self args kw0 e (by rw [hdir]; exact he))))).1
    cases hvs : validationStage self args kw0 with
    | raised ex ev3 =>
        have he3 : ev3.countP isDelCtxLacksEv = 0 := countP_zero_of fun e he =>
          notDelCtxLacks_of_not_teardown
            (not_teardown_or_cleanup (Or.inr (Or.inr (Or.inl
              (validationStage_events self args kw0 e (by rw [hvs]; exact he)))))).1
        simp [local_call, hreqp, hlen, hdir, hvs, List.countP_cons, List.countP_append,
          her, hed, he3, isDelCtxLacksEv]
    | done errsv kw3 ev3 =>
        have he3 : ev3.countP isDelCtxLacksEv = 0 := countP_zero_of fun e he =>
          notDelCtxLacks_of_not_teardown
            (not_teardown_or_cleanup (Or.inr (Or.inr (Or.inl
              (validationStage_events self args kw0 e (by rw [hvs]; exact he)))))).1
        by_cases htr : truthy errsv
        · rcases hoi : onInvalidApply self.on_invalid (Val.vdict [("errors", errsv)])
            with ⟨errors3, evi⟩
          rcases happ : apply_outputs (invalidOuts self) errors3 with ⟨out, evo⟩
          have hei : evi.countP isDelCtxLacksEv = 0 := countP_zero_of fun e he => by
            have hx := onInvalidApply_events self.on_invalid _ e (by rw [hoi]; exact he)
            exact notDelCtxLacks_of_not_teardown (not_teardown_or_cleanup (by tauto)).1
          have heo : evo.countP isDelCtxLacksEv = 0 := countP_zero_of fun e he => by
            have hx := apply_outputs_events (invalidOuts self) errors3 e (by rw [happ]; exact he)
            exact notDelCtxLacks_of_not_teardown (not_teardown_or_cleanup (by tauto)).1
          simp [local_call, hreqp, hlen, hdir, hvs, htr, hoi, happ, List.countP_cons,
            List.countP_append, her, hed, he3, hei, heo, isDelCtxLacksEv]
        · rcases hinv : invoke_transform self loopRunning (rewrite_params self.map_params kw3)
            with ⟨res, evc⟩
          have hec : evc.countP isDelCtxLacksEv = 0 := countP_zero_of fun e he => by
            rcases invoke_transform_events self loopRunning _ e (by rw [hinv]; exact he)
              with h | h
            · exact notDelCtxLacks_of_not_teardown (not_teardown_or_cleanup (by tauto)).1
            · exact notDelCtxLacks_of_not_teardown (not_teardown_or_cleanup (by tauto)).1
          cases res with
          | error ex =>
              have hcc : (cleanup_parameters (rewrite_params self.map_params kw3)
                  (some ex)).countP isDelCtxLacksEv = 0 :=
                countP_zero_of fun e he =>
                  notDelCtxLacks_of_not_teardown
                    (cleanup_not_teardown (cleanup_parameters_events _ _ e he))
              simp [local_call, hreqp, hlen, hdir, hvs, htr, hinv, List.countP_cons,
                List.countP_append, her, hed, he3, hec, hcc, isDelCtxLacksEv]
          | ok r =>
              have hcc : (cleanup_parameters (rewrite_params self.map_params kw3)
                  none).countP isDelCtxLacksEv = 0 :=
                countP_zero_of fun e he =>
                  notDelCtxLacks_of_not_teardown
                    (cleanup_not_teardown (cleanup_parameters_events _ _ e he))
              rcases happ : apply_outputs self.outputs r with ⟨out, evo⟩
              have heo : evo.countP isDelCtxLacksEv = 0 := countP_zero_of fun e he => by
                have hx := apply_outputs_events self.outputs r e (by rw [happ]; exact he)
                exact notDelCtxLacks_of_not_teardown (not_teardown_or_cleanup (by tauto)).1
              simp [local_call, hreqp, hlen, hdir, hvs, htr, hinv, happ, List.countP_cons,
                List.countP_append, her, hed, he3, hec, hcc, heo, isDelCtxLacksEv]

/-- C5: when some requirement conclusion is truthy and not the literal
`True`, the conclusions are evaluated in declaration order up to the first
such failure, teardown is invoked with `lacks_requirement` set to that
conclusion, and the call returns it (formatted only when an output
formatter is configured) — the trace shows that binding, directive
injection, validation and the wrapped function never ran.  When every
conclusion is `True` or falsy, no teardown with a `lacks_requirement`
marker ever happens and execution proceeds past the requirement phase. -/
theorem c5_requirement_short_circuit (self : LocalInterface) (loopRunning : Bool)
    (args : List Val) (kw0 : Dict) :
    (∀ i v, firstFailing 0 self.requires = some (i, v) →
      local_call self loopRunning args kw0 =
        (.ret (apply_outputs self.outputs v).1,
          Event.ctxCreate ::
            (reqEvalEventsGo 0 (self.requires.take (i + 1)) ++
              [Event.delCtx none none (some v)] ++ (apply_outputs self.outputs v).2))) ∧
    (firstFailing 0 self.requires = none →
      (local_call self loopRunning args kw0).2.countP isDelCtxLacksEv = 0) := by
  constructor
  · intro i v h
    have hreqp := requires_loop_of_firstFailing self.requires i v h
    rcases happ : apply_outputs self.outputs v with ⟨out, evo⟩
    simp [local_call, hreqp, happ]
  · intro h
    apply main_path_no_lacks
    have := requiresLoopGo_none self.requires self.requires h
    exact this

/-- C5 witness: a requirement conclusion `"forbidden"` short-circuits the
call, which returns it verbatim with teardown recording it. -/
theorem c5_witness :
    firstFailing 0 reqInterface.requires = some (0, Val.vstr "forbidden") ∧
    local_call reqInterface false [Val.vint 1] [] =
      (.ret (Val.vstr "forbidden"),
        [Event.ctxCreate, Event.reqEval 0 (Val.vstr "forbidden"),
          Event.delCtx none none (some (Val.vstr "forbidden"))]) := by
  refine ⟨rfl, ?_⟩
  have h := (c5_requirement_short_circuit reqInterface false [Val.vint 1] []).1 0
    (Val.vstr "forbidden") rfl
  simpa using h

/-! ### C8: handler retry on TypeError -/

/-- C8: for every input transformation handler, value and context, the
handler is first invoked as `handler(value, context=context)`; exactly
when that call raises a `TypeError` — whatever its origin — the handler is
retried as `handler(value)` and that second outcome is used; a non-TypeError
exception or a success of the first call is used directly, with no retry. -/
theorem c8_handler_retry (h : Handler) (v ctx : Val) :
    ((initialize_handler h v ctx).2 = [HCall.withCtx, HCall.plain] ↔
      ∃ e, h.withCtx v ctx = .error e ∧ e.ty = "TypeError") ∧
    ((∃ e, h.withCtx v ctx = .error e ∧ e.ty = "TypeError") →
      (initialize_handler h v ctx).1 = h.plain v) ∧
    (∀ r, h.withCtx v ctx = .ok r →
      initialize_handler h v ctx = (.ok r, [HCall.withCtx])) ∧
    (∀ e, h.withCtx v ctx = .error e → e.ty ≠ "TypeError" →
      initialize_handler h v ctx = (.error e, [HCall.withCtx])) := by
  refine ⟨⟨?_, ?_⟩, ?_, ?_, ?_⟩
  · intro hc
    cases hw : h.withCtx v ctx with
    | ok r => simp [initialize_handler, hw] at hc
    | error e =>
        by_cases hty : e.ty = "TypeError"
        · exact ⟨e, rfl, hty⟩
        · simp [initialize_handler, hw, hty] at hc
  · rintro ⟨e, he, hty⟩
    simp [initialize_handler, he, hty]
  · rintro ⟨e, he, hty⟩
    simp [initialize_handler, he, hty]
  · intro r hr
    simp [initialize_handler, hr]
  · intro e he hne
    simp [initialize_handler, he, hne]

/-- C8 witness: a handler raising `TypeError` on the context form is
retried with the value alone. -/
theorem c8_witness :
    (∃ e, ctxlessHandler.withCtx (Val.vint 1) Val.vnone = .error e ∧ e.ty = "TypeError") ∧
    (initialize_handler ctxlessHandler (Val.vint 1) Val.vnone).1 =
      ctxlessHandler.plain (Val.vint 1) :=
  ⟨⟨typeErrorExn, rfl, rfl⟩,
    (c8_handler_retry ctxlessHandler (Val.vint 1) Val.vnone).2.1 ⟨typeErrorExn, rfl, rfl⟩⟩

/-! ### C9: coroutine dispatch -/

/-- C9: for an interface over a coroutine function, calling with no event
loop running executes the coroutine to completion and yields its outcome
(value or exception) synchronously, while calling with a loop already
running returns the awaitable produced by invoking the function directly,
leaving the caller to await it. -/
theorem c9_async_dispatch (fn : FnModel) (kw : Dict) (hco : fn.is_coroutine = true) :
    interfaces_call fn false kw = fn.run kw ∧
    interfaces_call fn true kw = .ok (Val.vawait (resOf (fn.run kw))) := by
  constructor <;> simp [interfaces_call, hco, asyncio_call]

/-- C9 witness: the dispatch theorem applied to a concrete coroutine
function. -/
theorem c9_witness :
    coroFn.is_coroutine = true ∧
    interfaces_call coroFn false [] = coroFn.run [] ∧
    interfaces_call coroFn true [] = .ok (Val.vawait (resOf (coroFn.run []))) :=
  ⟨rfl, (c9_async_dispatch coroFn [] rfl).1, (c9_async_dispatch coroFn [] rfl).2⟩

/-! ### C6: directive precedence -/

theorem dlookup_none_of_not_mem_keys {α : Type} (l : AList α) (k : String)
    (h : k ∉ l.map Prod.fst) : dlookup l k = none := by
  induction l with
  | nil => rfl
  | cons p t ih =>
      simp only [List.map_cons, List.mem_cons] at h
      push_neg at h
      simp [dlookup, h.1, ih h.2]

theorem dlookup_dupdate_not_mem {α : Type} (d ov : AList α) (k : String)
    (h : dlookup ov k = none) : dlookup (dupdate d ov) k = dlookup d k := by
  induction ov generalizing d with
  | nil => rfl
  | cons p t ih =>
      have hk : ¬(k = p.1) := by
        intro hh
        simp [dlookup, hh] at h
      have ht : dlookup t k = none := by simpa [dlookup, hk] using h
      rw [show dupdate d (p :: t) = dupdate (dinsert d p.1 p.2) t from rfl]
      rw [ih _ ht, dlookup_dinsert]
      simp [hk]

theorem dlookup_dupdate_mem {α : Type} (d ov : AList α) (k : String) (v : α)
    (hnd : (ov.map Prod.fst).Nodup) (h : dlookup ov k = some v) :
    dlookup (dupdate d ov) k = some v := by
  induction ov generalizing d with
  | nil => simp [dlookup] at h
  | cons p t ih =>
      simp only [List.map_cons, List.nodup_cons] at hnd
      by_cases hk : k = p.1
      · have hv : v = p.2 := by
          rw [hk] at h
          simpa [dlookup] using h.symm
        subst hv
        have ht : dlookup t k = none := by
          rw [hk]
          exact dlookup_none_of_not_mem_keys t p.1 hnd.1
        rw [show dupdate d (p :: t) = dupdate (dinsert d p.1 p.2) t from rfl]
        rw [dlookup_dupdate_not_mem _ _ _ ht, dlookup_dinsert]
        simp [hk]
      · have ht : dlookup t k = some v := by simpa [dlookup, hk] using h
        rw [show dupdate d (p :: t) = dupdate (dinsert d p.1 p.2) t from rfl]
        exact ih _ hnd.2 ht

theorem used_lookup (defined : AList Directive) (params : List String) (p : String) :
    dlookup (params.filterMap fun q => (dlookup defined q).map fun d => (q, d)) p =
      if p ∈ params then dlookup defined p else none := by
  induction params with
  | nil => simp
  | cons q rest ih =>
      cases hd : dlookup defined q with
      | none =>
          simp only [List.filterMap_cons, hd, Option.map_none']
          rw [ih]
          by_cases hpq : p = q
          · subst hpq
            simp [hd]
          · simp [hpq]
      | some dv =>
          simp only [List.filterMap_cons, hd, Option.map_some']
          by_cases hpq : p = q
          · subst hpq
            simp [dlookup, hd]
          · simp [dlookup, hpq, ih]

theorem inject_keeps_supplied (dirs : AList Directive) (defaults kw : Dict) (p : String)
    (h : dmem kw p = true) :
    dlookup (inject_directives dirs defaults kw).1 p = dlookup kw p ∧
    (inject_directives dirs defaults kw).2.countP (isDirRunFor p) = 0 := by
  induction dirs generalizing kw with
  | nil => simp [inject_directives]
  | cons qd rest ih =>
      obtain ⟨q, d⟩ := qd
      by_cases hq : dmem kw q
      · simpa only [inject_directives, hq, if_pos] using ih kw h
      · rcases hc : inject_directives rest defaults (dinsert kw q (d (dlookup defaults q)))
          with ⟨kw2, ev⟩
        have hstep : inject_directives ((q, d) :: rest) defaults kw =
            (kw2, Event.dirRun q :: ev) := by
          simp [inject_directives, hq, hc]
        have hpq : ¬(p = q) := by
          intro hh
          rw [hh] at h
          rw [h] at hq
          exact hq rfl
        have h2 : dmem (dinsert kw q (d (dlookup defaults q))) p = true := by
          rw [dmem_dinsert]
          simp [h]
        have hih := ih (dinsert kw q (d (dlookup defaults q))) h2
        rw [hc] at hih
        simp only at hih
        have hqp : ¬(q = p) := fun hh => hpq hh.symm
        rw [hstep]
        refine ⟨?_, ?_⟩
        · show dlookup kw2 p = dlookup kw p
          rw [hih.1, dlookup_dinsert]
          simp [hpq]
        · show List.countP (isDirRunFor p) (Event.dirRun q :: ev) = 0
          rw [List.countP_cons]
          simp [hih.2, isDirRunFor, hqp]

theorem inject_first_entry (dirs : AList Directive) (defaults kw : Dict) (p : String)
    (d : Directive) (hd : dlookup dirs p = some d) (hk : dmem kw p = false) :
    dlookup (inject_directives dirs defaults kw).1 p = some (d (dlookup defaults p)) := by
  induction dirs generalizing kw with
  | nil => simp [dlookup] at hd
  | cons qd rest ih =>
      obtain ⟨q, dq⟩ := qd
      by_cases hpq : p = q
      · subst hpq
        have hdq : dq = d := by simpa [dlookup] using hd
        subst hdq
        have hq : ¬(dmem kw p = true) := by simp [hk]
        rcases hc : inject_directives rest defaults (dinsert kw p (dq (dlookup defaults p)))
          with ⟨kw2, ev⟩
        have hstep : inject_directives ((p, dq) :: rest) defaults kw =
            (kw2, Event.dirRun p :: ev) := by
          simp [inject_directives, hq, hc]
        have hmem : dmem (dinsert kw p (dq (dlookup defaults p))) p = true := by
          rw [dmem_dinsert]; simp
        have hkeep := inject_keeps_supplied rest defaults _ p hmem
        rw [hc] at hkeep
        simp only at hkeep
        rw [hstep]
        show dlookup kw2 p = some (dq (dlookup defaults p))
        rw [hkeep.1, dlookup_dinsert]
        simp
      · have hdr : dlookup rest p = some d := by simpa [dlookup, hpq] using hd
        by_cases hq : dmem kw q
        · simpa only [inject_directives, hq, if_pos] using ih kw hdr hk
        · rcases hc : inject_directives rest defaults (dinsert kw q (dq (dlookup defaults q)))
            with ⟨kw2, ev⟩
          have hstep : inject_directives ((q, dq) :: rest) defaults kw =
              (kw2, Event.dirRun q :: ev) := by
            simp [inject_directives, hq, hc]
          have hk2 : dmem (dinsert kw q (dq (dlookup defaults q))) p = false := by
            rw [dmem_dinsert]
            simp [hpq, hk]
          have hih := ih (dinsert kw q (dq (dlookup defaults q))) hdr hk2
          rw [hc] at hih
          simp only at hih
          rw [hstep]
          exact hih

/-- C6: a directive declared in the function's own annotations shadows a
same-named API-level directive in the merged directive map; the API-level
directive is used exactly for parameter names carrying no annotation
directive; no factory runs for a parameter the caller supplied (its value
is untouched); and an unsupplied directive parameter receives the value
produced by the merged (annotation-preferring) factory. -/
theorem c6_directive_precedence (defined ann : AList Directive) (params : List String)
    (p : String) (hnd : (ann.map Prod.fst).Nodup) :
    ((dlookup ann p).isSome →
      dlookup (interface_directives_init defined params ann) p = dlookup ann p) ∧
    (dlookup ann p = none → p ∈ params →
      dlookup (interface_directives_init defined params ann) p = dlookup defined p) ∧
    (dlookup ann p = none → p ∉ params →
      dlookup (interface_directives_init defined params ann) p = none) ∧
    (∀ (dirs : AList Directive) (defaults kw : Dict), dmem kw p = true →
      dlookup (inject_directives dirs defaults kw).1 p = dlookup kw p ∧
      (inject_directives dirs defaults kw).2.countP (isDirRunFor p) = 0) ∧
    (∀ (defaults kw : Dict) (d : Directive), dmem kw p = false →
      dlookup (interface_directives_init defined params ann) p = some d →
      dlookup
        (inject_directives (interface_directives_init defined params ann) defaults kw).1 p =
        some (d (dlookup defaults p))) := by
  refine ⟨?_, ?_, ?_, fun dirs defaults kw h => inject_keeps_supplied dirs defaults kw p h,
    fun defaults kw d hk hd => inject_first_entry _ defaults kw p d hd hk⟩
  · intro hs
    obtain ⟨v, hv⟩ := Option.isSome_iff_exists.mp hs
    simp only [interface_directives_init]
    rw [hv]
    exact dlookup_dupdate_mem _ ann p v hnd hv
  · intro hn hp
    simp only [interface_directives_init]
    rw [dlookup_dupdate_not_mem _ _ _ hn, used_lookup]
    simp [hp]
  · intro hn hp
    simp only [interface_directives_init]
    rw [dlookup_dupdate_not_mem _ _ _ hn, used_lookup]
    simp [hp]

/-- C6 witness: with a global directive and an annotation directive both
named `thing`, the merged map holds the annotation one and injection binds
its value. -/
theorem c6_witness :
    dlookup (interface_directives_init [("thing", globalThing)] ["thing"]
      [("thing", localThing)]) "thing" = some localThing ∧
    dlookup (inject_directives
      (interface_directives_init [("thing", globalThing)] ["thing"] [("thing", localThing)])
      [] []).1 "thing" = some (Val.vstr "local") :=
  ⟨((c6_directive_precedence [("thing", globalThing)] [("thing", localThing)] ["thing"]
      "thing" (by simp)).1 rfl).trans rfl,
    (((c6_directive_precedence [("thing", globalThing)] [("thing", localThing)] ["thing"]
      "thing" (by simp)).2.2.2.2 [] [] localThing rfl rfl)).trans rfl⟩

/-! ### C7: descriptor caching -/

/-- C7: building a second bound interface for the same function reuses the
cached descriptor: introspection runs exactly once across the two
decorations, and both bound interfaces expose identical `parameters`,
`required` and `defaults` for any one route configuration. -/
theorem c7_descriptor_cache (s : SigSpec) (r : RouteCfg) :
    (ensure_interfaces s none).2.2 +
      (ensure_interfaces s (ensure_interfaces s none).2.1).2.2 = 1 ∧
    (interface_fields r (ensure_interfaces s none).1).parameters =
      (interface_fields r (ensure_interfaces s (ensure_interfaces s none).2.1).1).parameters ∧
    (interface_fields r (ensure_interfaces s none).1).required =
      (interface_fields r (ensure_interfaces s (ensure_interfaces s none).2.1).1).required ∧
    (interface_fields r (ensure_interfaces s none).1).defaults =
      (interface_fields r (ensure_interfaces s (ensure_interfaces s none).2.1).1).defaults :=
  ⟨rfl, rfl, rfl, rfl⟩

/-! ### C4: chainable route configuration -/

theorem dlookup_optEntry_append (c : Bool) (key : String) (v : Val) (rest : Dict)
    (k : String) :
    dlookup (optEntry c key v ++ rest) k =
      if k = key ∧ c = true then some v else dlookup rest k := by
  by_cases hc : c <;> by_cases hk : k = key <;> simp [optEntry, dlookup, hc, hk]

theorem dlookup_optEntry (c : Bool) (key : String) (v : Val) (k : String) :
    dlookup (optEntry c key v) k =
      if k = key ∧ c = true then some v else none := by
  by_cases hc : c <;> by_cases hk : k = key <;> simp [optEntry, dlookup, hc, hk]

theorem lrInit_lookup (d : Dict) (k : String) (hk : k ∈ chainKeys) :
    dlookup (local_router_init d) k = storeFor k (dlookup d k) := by
  fin_cases hk <;>
    cases hd : dlookup d _ <;>
      simp [local_router_init, List.append_assoc, dlookup_optEntry_append, dlookup_optEntry,
        hd, storeFor, storeOpt, storeRequires, isNone, truthy]

theorem lrInit_skip_directives (d : Dict) :
    dlookup (local_router_init d) "skip_directives" =
      if truthy ((dlookup d "directives").getD (Val.vbool true)) then none
      else some (Val.vbool true) := by
  by_cases hc : truthy ((dlookup d "directives").getD (Val.vbool true)) <;>
    simp [local_router_init, List.append_assoc, dlookup_optEntry_append, dlookup_optEntry, hc]

theorem lrInit_skip_validation (d : Dict) :
    dlookup (local_router_init d) "skip_validation" =
      if truthy ((dlookup d "validate").getD (Val.vbool true)) then none
      else some (Val.vbool true) := by
  by_cases hc : truthy ((dlookup d "validate").getD (Val.vbool true)) <;>
    simp [local_router_init, List.append_assoc, dlookup_optEntry_append, dlookup_optEntry, hc]

theorem lrInit_no_directives (d : Dict) :
    dlookup (local_router_init d) "directives" = none := by
  simp [local_router_init, List.append_assoc, dlookup_optEntry_append, dlookup_optEntry]

theorem lrInit_no_validate (d : Dict) :
    dlookup (local_router_init d) "validate" = none := by
  simp [local_router_init, List.append_assoc, dlookup_optEntry_append, dlookup_optEntry]

theorem storeFor_idem (k : String) (x : Option Val) (hk : k ∈ chainKeys) :
    storeFor k (storeFor k x) = storeFor k x := by
  have hso : ∀ (c : Val → Bool) (y : Option Val), storeOpt c (storeOpt c y) = storeOpt c y := by
    intro c y
    cases y with
    | none => rfl
    | some t => by_cases h : c t <;> simp [storeOpt, h]
  have hsr : storeRequires (storeRequires x) = storeRequires x := by
    cases x with
    | none => rfl
    | some t =>
        by_cases ht : truthy t
        · by_cases hl : isListVal t
          · simp [storeRequires, ht, normRequires, hl]
          · have h1 : normRequires t = Val.vlist [t] := by simp [normRequires, hl]
            have h2 : storeRequires (some t) = some (Val.vlist [t]) := by
              simp [storeRequires, ht, h1]
            rw [h2]
            rfl
        · simp [storeRequires, ht]
  fin_cases hk <;> simp only [storeFor] <;> simp only [reduceIte] <;>
    first | exact hso _ _ | exact hsr

theorem dlookup_dupdate_single {α : Type} (d : AList α) (k : String) (v : α) (k2 : String) :
    dlookup (dupdate d [(k, v)]) k2 = if k2 = k then some v else dlookup d k2 :=
  dlookup_dinsert d k v k2

/-- C4 (amended): a chainable configuration call on a `LocalRouter` (all of
`output`, `transform`, `requires`, `map_params`, `raise_on_invalid`,
`on_invalid`, `output_invalid`, `version` and `where` itself funnel into
`where` with a value-bearing key) yields a new route in which the
overridden key holds the new value and every other value-bearing key is
unchanged — but the `skip_directives` and `skip_validation` flags are
always dropped, because the rebuild re-derives them only from the
`directives` / `validate` keywords, which `where` does not pass.  (The
original claim said those flags are preserved; the counterexample shows
they are not.)  The receiver route, a pure value, is untouched. -/
theorem c4_where_new_route (kw : Dict) (k : String) (v : Val)
    (hk : k ∈ chainKeys)
    (hv : storeFor k (some v) = some v) :
    dlookup (router_where (local_router_init kw) [(k, v)]) k = some v ∧
    (∀ k2 ∈ chainKeys, k2 ≠ k →
      dlookup (router_where (local_router_init kw) [(k, v)]) k2 =
        dlookup (local_router_init kw) k2) ∧
    dlookup (router_where (local_router_init kw) [(k, v)]) "skip_directives" = none ∧
    dlookup (router_where (local_router_init kw) [(k, v)]) "skip_validation" = none := by
  have hkd : ¬("directives" = k) := by
    intro hh
    rw [← hh] at hk
    simp [chainKeys] at hk
  have hkv : ¬("validate" = k) := by
    intro hh
    rw [← hh] at hk
    simp [chainKeys] at hk
  refine ⟨?_, ?_, ?_, ?_⟩
  · rw [router_where, lrInit_lookup _ k hk, dlookup_dupdate_single]
    simp [hv]
  · intro k2 hk2 hne
    rw [router_where, lrInit_lookup _ k2 hk2, dlookup_dupdate_single, if_neg hne,
      lrInit_lookup kw k2 hk2]
    exact storeFor_idem k2 _ hk2
  · have h1 : dlookup (dupdate (local_router_init kw) [(k, v)]) "directives" = none := by
      rw [dlookup_dupdate_single, if_neg hkd, lrInit_no_directives]
    rw [router_where, lrInit_skip_directives, h1]
    simp [truthy]
  · have h1 : dlookup (dupdate (local_router_init kw) [(k, v)]) "validate" = none := by
      rw [dlookup_dupdate_single, if_neg hkv, lrInit_no_validate]
    rw [router_where, lrInit_skip_validation, h1]
    simp [truthy]

/-- C4 counterexample: a `LocalRouter(directives=False)` route carries
`skip_directives`; after `.output(formatter)` the new route has the output
formatter but the skip-directives flag is gone — the receiver's fields are
not all preserved, refuting the claim as stated. -/
theorem c4_counterexample :
    dlookup (local_router_init [("directives", Val.vbool false)]) "skip_directives" =
      some (Val.vbool true) ∧
    dlookup (lr_output (local_router_init [("directives", Val.vbool false)])
      (Val.vobj 7 false)) "skip_directives" = none ∧
    dlookup (lr_output (local_router_init [("directives", Val.vbool false)])
      (Val.vobj 7 false)) "output" = some (Val.vobj 7 false) :=
  ⟨rfl, rfl, rfl⟩

/-- C4 witness: the amended theorem applied to a concrete route carrying a
transform, overridden at the `output` key. -/
theorem c4_witness :
    "output" ∈ chainKeys ∧
    storeFor "output" (some (Val.vobj 7 false)) = some (Val.vobj 7 false) ∧
    dlookup (router_where (local_router_init [("transform", Val.vobj 1 false)])
      [("output", Val.vobj 7 false)]) "output" = some (Val.vobj 7 false) ∧
    dlookup (router_where (local_router_init [("transform", Val.vobj 1 false)])
      [("output", Val.vobj 7 false)]) "transform" =
      dlookup (local_router_init [("transform", Val.vobj 1 false)]) "transform" := by
  have h := c4_where_new_route [("transform", Val.vobj 1 false)] "output" (Val.vobj 7 false)
    (by simp [chainKeys]) rfl
  exact ⟨by simp [chainKeys], rfl, h.1, h.2.1 "transform" (by simp [chainKeys]) (by simp)⟩

/-! ### C10: the required/parameters/defaults invariant -/

theorem dmem_dremove_imp {α : Type} (d : AList α) (k k2 : String)
    (h : dmem (dremove d k) k2 = true) : dmem d k2 = true := by
  induction d with
  | nil => simpa [dremove] using h
  | cons p t ih =>
      by_cases hk2 : k2 = p.1
      · simp [dmem, dlookup, hk2]
      · by_cases hk : k = p.1
        · rw [show dremove (p :: t) k = t from by simp [dremove, hk]] at h
          simp only [dmem, dlookup, if_neg hk2]
          exact h
        · rw [show dremove (p :: t) k = p :: dremove t k from by simp [dremove, hk]] at h
          simp only [dmem, dlookup, if_neg hk2] at h ⊢
          exact ih h

theorem dmem_dictOfPairs {α : Type} (l : List (String × α)) (k : String) :
    dmem (dictOfPairs l) k = true ↔ k ∈ l.map Prod.fst := by
  suffices h : ∀ (acc : AList α),
      dmem (l.foldl (fun d p => dinsert d p.1 p.2) acc) k = true ↔
        (dmem acc k = true ∨ k ∈ l.map Prod.fst) by
    have := h []
    simpa [dictOfPairs, dmem, dlookup] using this
  intro acc
  induction l generalizing acc with
  | nil => simp
  | cons p t ih =>
      simp only [List.foldl_cons, List.map_cons, List.mem_cons]
      rw [ih, dmem_dinsert]
      simp only [Bool.or_eq_true, decide_eq_true_eq]
      tauto

theorem mem_keys_zip_take {α : Type} (l1 : List String) (l2 : List α) (k : String)
    (h : k ∈ (l1.zip l2).map Prod.fst) : k ∈ l1.take l2.length := by
  induction l1 generalizing l2 with
  | nil => simp at h
  | cons a t ih =>
      cases l2 with
      | nil => simp at h
      | cons b t2 =>
          simp only [List.zip_cons_cons, List.map_cons, List.mem_cons] at h
          rcases h with h | h
          · simp [List.take_succ_cons, h]
          · simp only [List.length_cons, List.take_succ_cons, List.mem_cons]
            exact Or.inr (ih t2 h)

theorem interfaces_sig_invariant (s : SigSpec) (hnd : s.parameters.Nodup) :
    (∀ r ∈ (interfaces_sig s).required, r ∈ (interfaces_sig s).parameters) ∧
    (∀ r ∈ (interfaces_sig s).required, dmem (interfaces_sig s).defaults r = false) := by
  have hkeys : ∀ r,
      dmem (dictOfPairs (s.parameters.reverse.zip s.defaultVals.reverse)) r = true →
      r ∈ s.parameters.drop (s.parameters.length - s.defaultVals.length) := by
    intro r hr
    rw [dmem_dictOfPairs] at hr
    have hr2 := mem_keys_zip_take _ _ _ hr
    rw [List.length_reverse, List.take_reverse] at hr2
    exact List.mem_reverse.mp hr2
  have hdisj : ∀ r ∈ s.parameters.take (s.parameters.length - s.defaultVals.length),
      r ∉ s.parameters.drop (s.parameters.length - s.defaultVals.length) :=
    fun r hr => List.disjoint_take_drop hnd (le_refl _) hr
  constructor
  · intro r hr
    by_cases hm : s.is_method <;> simp [interfaces_sig, hm] at hr ⊢
    · rw [← List.drop_one] at hr ⊢
      rw [List.drop_take] at hr
      exact List.mem_of_mem_take hr
    · exact List.mem_of_mem_take hr
  · intro r hr
    by_cases hm : s.is_method <;> simp [interfaces_sig, hm] at hr ⊢
    · rw [← List.drop_one] at hr
      have hr2 : r ∈ s.parameters.take (s.parameters.length - s.defaultVals.length) :=
        List.mem_of_mem_drop hr
      cases hx : dmem (dictOfPairs (s.parameters.reverse.zip s.defaultVals.reverse)) r
      · rfl
      · exact absurd (hkeys r hx) (hdisj r hr2)
    · cases hx : dmem (dictOfPairs (s.parameters.reverse.zip s.defaultVals.reverse)) r
      · rfl
      · exact absurd (hkeys r hx) (hdisj r hr)

theorem renameStep_facts (st : InterfacesSig) (iface internal : String)
    (h1 : ∀ r ∈ st.required, r ∈ st.parameters)
    (h2 : ∀ r ∈ st.required, dmem st.defaults r = false)
    (hfp : iface ∉ st.parameters)
    (hfd : dmem st.defaults iface = false) :
    (∀ r ∈ (renameStep st iface internal).required,
      r ∈ (renameStep st iface internal).parameters) ∧
    (∀ r ∈ (renameStep st iface internal).required,
      dmem (renameStep st iface internal).defaults r = false) ∧
    (∀ x ∈ (renameStep st iface internal).parameters, x ∈ st.parameters ∨ x = iface) ∧
    (∀ k, dmem (renameStep st iface internal).defaults k = true →
      dmem st.defaults k = true ∨ k = iface) := by
  refine ⟨?_, ?_, ?_, ?_⟩
  · intro r hr
    simp only [renameStep] at hr ⊢
    by_cases hir : internal ∈ st.required
    · rw [if_pos hir] at hr
      rw [if_pos (h1 internal hir)]
      obtain ⟨y, hy, rfl⟩ := List.mem_map.mp hr
      exact List.mem_map.mpr ⟨y, h1 y hy, rfl⟩
    · rw [if_neg hir] at hr
      by_cases hip : internal ∈ st.parameters
      · rw [if_pos hip]
        have hri : ¬(r = internal) := fun hh => hir (hh ▸ hr)
        refine List.mem_map.mpr ⟨r, h1 r hr, ?_⟩
        simp [subName, hri]
      · rw [if_neg hip]
        exact h1 r hr
  · intro r hr
    simp only [renameStep] at hr ⊢
    by_cases hdm : dmem st.defaults internal
    · rw [if_pos hdm]
      have hir : internal ∉ st.required := by
        intro hh
        simp [h2 internal hh] at hdm
      rw [if_neg hir] at hr
      have hrne : ¬(r = iface) := fun hh => hfp (hh ▸ h1 r hr)
      rw [dmem_dinsert, decide_eq_false hrne, Bool.false_or]
      cases hx : dmem (dremove st.defaults internal) r
      · rfl
      · exact absurd (dmem_dremove_imp _ _ _ hx) (by simp [h2 r hr])
    · rw [if_neg hdm]
      by_cases hir : internal ∈ st.required
      · rw [if_pos hir] at hr
        obtain ⟨y, hy, rfl⟩ := List.mem_map.mp hr
        by_cases hyi : y = internal
        · subst hyi
          simpa [subName] using hfd
        · rw [show subName internal iface y = y from by simp [subName, hyi]]
          exact h2 y hy
      · rw [if_neg hir] at hr
        exact h2 r hr
  · intro x hx
    simp only [renameStep] at hx
    by_cases hip : internal ∈ st.parameters
    · rw [if_pos hip] at hx
      obtain ⟨y, hy, rfl⟩ := List.mem_map.mp hx
      by_cases hyi : y = internal
      · subst hyi
        right
        simp [subName]
      · left
        rw [show subName internal iface y = y from by simp [subName, hyi]]
        exact hy
    · rw [if_neg hip] at hx
      exact Or.inl hx
  · intro k hk
    simp only [renameStep] at hk
    by_cases hdm : dmem st.defaults internal
    · rw [if_pos hdm] at hk
      rw [dmem_dinsert] at hk
      by_cases hki : k = iface
      · exact Or.inr hki
      · rw [decide_eq_false hki, Bool.false_or] at hk
        exact Or.inl (dmem_dremove_imp _ _ _ hk)
    · rw [if_neg hdm] at hk
      exact Or.inl hk

theorem apply_map_params_inv (mp : AList String) (st : InterfacesSig)
    (h1 : ∀ r ∈ st.required, r ∈ st.parameters)
    (h2 : ∀ r ∈ st.required, dmem st.defaults r = false)
    (hfresh : ∀ e ∈ mp, e.1 ∉ st.parameters ∧ dmem st.defaults e.1 = false)
    (hnd : (mp.map Prod.fst).Nodup) :
    (∀ r ∈ (apply_map_params mp st).required, r ∈ (apply_map_params mp st).parameters) ∧
    (∀ r ∈ (apply_map_params mp st).required,
      dmem (apply_map_params mp st).defaults r = false) := by
  induction mp generalizing st with
  | nil => exact ⟨h1, h2⟩
  | cons e t ih =>
      obtain ⟨iface, internal⟩ := e
      simp only [List.map_cons, List.nodup_cons] at hnd
      have hf := hfresh (iface, internal) (by simp)
      obtain ⟨hstep1, hstep2, hbound_p, hbound_d⟩ :=
        renameStep_facts st iface internal h1 h2 hf.1 hf.2
      have hfresh2 : ∀ e2 ∈ t, e2.1 ∉ (renameStep st iface internal).parameters ∧
          dmem (renameStep st iface internal).defaults e2.1 = false := by
        intro e2 he2
        have hf2 := hfresh e2 (by simp [he2])
        have hne : ¬(e2.1 = iface) := by
          intro hh
          have hmm : e2.1 ∈ t.map Prod.fst := List.mem_map.mpr ⟨e2, he2, rfl⟩
          rw [hh] at hmm
          exact hnd.1 hmm
        constructor
        · intro hmem
          rcases hbound_p e2.1 hmem with h | h
          · exact hf2.1 h
          · exact hne h
        · cases hx : dmem (renameStep st iface internal).defaults e2.1
          · rfl
          · rcases hbound_d e2.1 hx with h | h
            · rw [hf2.2] at h
              cases h
            · exact absurd h hne
      have := ih (renameStep st iface internal) hstep1 hstep2 hfresh2 hnd.2
      simpa [apply_map_params] using this

/-- C10 (amended): for a bound interface resolved from the descriptor or
from route-supplied parameters, with or without receiver stripping, and
renamed through a `map_params` whose interface-facing names are fresh
(none equals a pre-rename parameter name or defaults key), every required
name is a parameter name and no required name has a default.  (The
original claim had no freshness condition; a rename whose target collides
with an existing parameter breaks it, see the counterexample.) -/
theorem c10_required_invariant (s : SigSpec) (route : RouteCfg)
    (hnd : s.parameters.Nodup)
    (hkeys : (route.map_params.map Prod.fst).Nodup)
    (hfresh : ∀ e ∈ route.map_params,
      e.1 ∉ (baseFields route (interfaces_sig s)).parameters ∧
      dmem (baseFields route (interfaces_sig s)).defaults e.1 = false) :
    (∀ r ∈ (interface_fields route (interfaces_sig s)).required,
      r ∈ (interface_fields route (interfaces_sig s)).parameters) ∧
    (∀ r ∈ (interface_fields route (interfaces_sig s)).required,
      dmem (interface_fields route (interfaces_sig s)).defaults r = false) := by
  have hbase : (∀ r ∈ (baseFields route (interfaces_sig s)).required,
      r ∈ (baseFields route (interfaces_sig s)).parameters) ∧
      (∀ r ∈ (baseFields route (interfaces_sig s)).required,
        dmem (baseFields route (interfaces_sig s)).defaults r = false) := by
    cases hp : route.parameters with
    | none => simpa [baseFields, hp] using interfaces_sig_invariant s hnd
    | some ps =>
        constructor <;> intro r hr <;>
          simp only [baseFields, hp, List.mem_filter, Bool.not_eq_eq_eq_not,
            Bool.not_true] at hr ⊢
        · exact hr.1
        · exact hr.2
  have := apply_map_params_inv route.map_params (baseFields route (interfaces_sig s))
    hbase.1 hbase.2 hfresh hkeys
  simpa [interface_fields] using this

/-- C10 counterexample: for `f(a, b=1)` with `map_params` renaming internal
`b` to interface name `a`, the bound interface has `a` both required and
holding a default — refuting the invariant as claimed. -/
theorem c10_counterexample :
    "a" ∈ (interface_fields r10model (interfaces_sig s10model)).required ∧
    dmem (interface_fields r10model (interfaces_sig s10model)).defaults "a" = true := by
  exact ⟨by decide, by decide⟩

/-- C10 witness: the amended invariant applied to `f(a, b=1)` with the
collision-free rename of `b` to `x`. -/
theorem c10_witness :
    s10model.parameters.Nodup ∧
    (∀ r ∈ (interface_fields r10fresh (interfaces_sig s10model)).required,
      r ∈ (interface_fields r10fresh (interfaces_sig s10model)).parameters) ∧
    (∀ r ∈ (interface_fields r10fresh (interfaces_sig s10model)).required,
      dmem (interface_fields r10fresh (interfaces_sig s10model)).defaults r = false) := by
  have h := c10_required_invariant s10model r10fresh (by decide) (by decide) (by decide)
  exact ⟨by decide, h.1, h.2⟩

end HugCore
